import Mathlib

/-!
Verification of the analysis core of the Stellar Smart Contracts LSP server.

The definitions below are a shallow embedding of `server/src/server.ts`:
document text is a `String`, lines are `List Char`, and the imperative
scanning loops are translated into explicit recursions and folds.
JavaScript string primitives are modelled on `List Char`:
`String.prototype.includes` as `includesL`, `String.prototype.trim` as
`trimList` (trimming `Char.isWhitespace`, which agrees with the JS
whitespace class on the ASCII inputs the server handles),
`String.prototype.indexOf` as `subIdx`, `text.split('\n')` as
`splitLines`, and `.length` as `List.length` (equal to the JS UTF-16
length on ASCII text).
-/

namespace StellarLSP

/-- LSP position: zero-based line and character, as used in the server's
diagnostic ranges. -/
structure Position where
  line : Nat
  character : Nat
deriving DecidableEq, Repr

/-- LSP range made of a start and an end position.  The TypeScript field
`end` is rendered `stop` because `end` is a Lean keyword. -/
structure LspRange where
  start : Position
  stop : Position
deriving DecidableEq, Repr

/-- The two diagnostic severities the server emits
(`DiagnosticSeverity.Error` and `DiagnosticSeverity.Warning`). -/
inductive Severity where
  | error
  | warning
deriving DecidableEq, Repr

/-- One diagnostic record as pushed by `validateTextDocument`. -/
structure Diagnostic where
  severity : Severity
  range : LspRange
  message : String
  source : String
deriving DecidableEq, Repr

/-- `stellar.lsp.trace` settings object. -/
structure TraceSettings where
  server : String
deriving DecidableEq, Repr

/-- `stellar.lsp` settings object. -/
structure LspSettings where
  enable : Bool
  trace : TraceSettings
deriving DecidableEq, Repr

/-- `stellar.diagnostics` settings object. -/
structure DiagnosticsSettings where
  enable : Bool
deriving DecidableEq, Repr

/-- The `StellarSettings` configuration interface of the server. -/
structure StellarSettings where
  lsp : LspSettings
  diagnostics : DiagnosticsSettings
deriving DecidableEq, Repr

/-- The server's `defaultSettings` constant. -/
def defaultSettings : StellarSettings :=
  { lsp := { enable := true, trace := { server := "off" } }
    diagnostics := { enable := true } }

/-! ## JavaScript string primitives on `List Char` -/

/-- JS `a.includes(b)`: `b` occurs as a contiguous substring of `a`. -/
def includesL : List Char → List Char → Bool
  | [], pat => pat.isEmpty
  | c :: cs, pat => pat.isPrefixOf (c :: cs) || includesL cs pat

/-- JS `a.indexOf(b)` restricted to the case where `b` occurs in `a`
(the server only reads the index after an `includes` check); on a list
without an occurrence it returns the length of the list. -/
def subIdx : List Char → List Char → Nat
  | [], _ => 0
  | c :: cs, pat => if pat.isPrefixOf (c :: cs) then 0 else subIdx cs pat + 1

/-- Left half of JS `trim`: drop leading whitespace. -/
def trimLeftList (l : List Char) : List Char := l.dropWhile Char.isWhitespace

/-- JS `line.trim()`: drop leading and trailing whitespace. -/
def trimList (l : List Char) : List Char :=
  ((trimLeftList l).reverse.dropWhile Char.isWhitespace).reverse

/-- JS `text.split('\n')`: the newline-separated segments of the text,
with `n` newlines yielding `n + 1` segments. -/
def splitLines : List Char → List (List Char)
  | [] => [[]]
  | c :: cs =>
    if c = '\n' then [] :: splitLines cs
    else
      match splitLines cs with
      | [] => [[c]]
      | l :: ls => (c :: l) :: ls

/-! ## Pattern constants scanned for by `validateTextDocument` -/

def sorobanImportPat : List Char := "use soroban_sdk".toList
def structPat : List Char := "struct".toList
def contractNamePat : List Char := "Contract".toList
def implPat : List Char := "impl".toList
def contractAttrPat : List Char := "#[contract]".toList
def contractImplAttrPat : List Char := "#[contractimpl]".toList
def contractTypeAttrPat : List Char := "#[contracttype]".toList
def enumPat : List Char := "enum".toList
def pubFnPat : List Char := "pub fn".toList
def viewPat : List Char := "view".toList
def addressPat : List Char := "Address".toList
def requireAuthPat : List Char := "require_auth()".toList
def closeBracePat : List Char := "\x7d".toList
def unwrapPat : List Char := "unwrap()".toList
def unwrapOrPat : List Char := "unwrap_or".toList
def envStoragePat : List Char := "env.storage()".toList
def instancePat : List Char := ".instance()".toList
def persistentPat : List Char := ".persistent()".toList
def temporaryPat : List Char := ".temporary()".toList

/-! ## Diagnostic messages emitted by `validateTextDocument` -/

def structAttrMsg : String := "Stellar contract struct must have #[contract] attribute"
def implAttrMsg : String :=
  "Stellar contract implementation must have #[contractimpl] attribute"
def contractTypeMsg : String :=
  "Consider adding #[contracttype] attribute for Stellar contract data types"
def requireAuthMsg : String :=
  "Consider adding require_auth() for address parameters in state-changing functions"
def unwrapMsg : String :=
  "Consider using unwrap_or() or proper error handling instead of unwrap()"
def storageMsg : String :=
  "Storage access must specify type: .instance(), .persistent(), or .temporary()"
def globalStructMsg : String := "Contract struct is missing #[contract] attribute"
def globalImplMsg : String := "Contract implementation is missing #[contractimpl] attribute"
def lspSource : String := "stellar-lsp"

/-! ## The validation pass -/

/-- A conditional single-diagnostic list: the shape of each
`if (...) { diagnostics.push({...}) }` block in the source. -/
def optD (b : Bool) (d : Diagnostic) : List Diagnostic := if b then [d] else []

/-- Value of the `hasSorobanSdkImport` flag at the start of rule checks in
iteration `i`: the flag is set by the `use soroban_sdk` check that runs
before the rules in the same iteration, so at line `i` it covers lines
`0..i`. -/
def hasSorobanImportUpTo (lines : List (List Char)) (i : Nat) : Bool :=
  (List.range (i + 1)).any fun j => includesL (trimList (lines.getD j [])) sorobanImportPat

/-- The `for (let j = i + 1; j < Math.min(i + 10, lines.length); j++)` scan
for `require_auth()`, over an explicit list of line indices: a line
containing `require_auth()` yields `true`, otherwise a line containing a
closing brace stops the scan with `false`. -/
def scanRequireAuth (lines : List (List Char)) : List Nat → Bool
  | [] => false
  | j :: js =>
    if includesL (lines.getD j []) requireAuthPat then true
    else if includesL (lines.getD j []) closeBracePat then false
    else scanRequireAuth lines js

/-- The value of `hasRequireAuth` after the lookahead loop at line `i`. -/
def lookaheadRequireAuth (lines : List (List Char)) (i : Nat) : Bool :=
  scanRequireAuth lines (List.range' (i + 1) (min (i + 10) lines.length - (i + 1)))

/-- Condition of the missing-`#[contract]` check at line `i`. -/
def condStructAttr (lines : List (List Char)) (i : Nat) : Bool :=
  includesL (trimList (lines.getD i [])) structPat &&
  includesL (trimList (lines.getD i [])) contractNamePat &&
  (i == 0 || !(includesL (trimList (lines.getD (i - 1) [])) contractAttrPat))

/-- Condition of the missing-`#[contractimpl]` check at line `i`. -/
def condImplAttr (lines : List (List Char)) (i : Nat) : Bool :=
  includesL (trimList (lines.getD i [])) implPat &&
  includesL (trimList (lines.getD i [])) contractNamePat &&
  (i == 0 || !(includesL (trimList (lines.getD (i - 1) [])) contractImplAttrPat))

/-- Condition of the `#[contracttype]` suggestion at line `i`. -/
def condContractType (lines : List (List Char)) (i : Nat) : Bool :=
  (includesL (trimList (lines.getD i [])) enumPat ||
   includesL (trimList (lines.getD i [])) structPat) &&
  !(includesL (trimList (lines.getD i [])) contractNamePat) &&
  (i == 0 || !(includesL (trimList (lines.getD (i - 1) [])) contractTypeAttrPat)) &&
  hasSorobanImportUpTo lines i

/-- Condition of the `require_auth()` suggestion at line `i`. -/
def condRequireAuth (lines : List (List Char)) (i : Nat) : Bool :=
  includesL (trimList (lines.getD i [])) pubFnPat &&
  !(includesL (trimList (lines.getD i [])) viewPat) &&
  !(lookaheadRequireAuth lines i) &&
  includesL (trimList (lines.getD i [])) addressPat

/-- Condition of the `unwrap()` warning at line `i`. -/
def condUnwrap (lines : List (List Char)) (i : Nat) : Bool :=
  includesL (trimList (lines.getD i [])) unwrapPat &&
  !(includesL (trimList (lines.getD i [])) unwrapOrPat)

/-- Condition of the storage-type error at line `i`. -/
def condStorage (lines : List (List Char)) (i : Nat) : Bool :=
  includesL (trimList (lines.getD i [])) envStoragePat &&
  !(includesL (trimList (lines.getD i [])) instancePat) &&
  !(includesL (trimList (lines.getD i [])) persistentPat) &&
  !(includesL (trimList (lines.getD i [])) temporaryPat)

/-- Full-line range at line `i`: `start (i,0)`, `end (i, line.length)`. -/
def fullLineRange (lines : List (List Char)) (i : Nat) : LspRange :=
  ⟨⟨i, 0⟩, ⟨i, (lines.getD i []).length⟩⟩

/-- The diagnostics pushed while processing line `i`, in source order. -/
def lineDiags (lines : List (List Char)) (i : Nat) : List Diagnostic :=
  optD (condStructAttr lines i)
    ⟨.error, fullLineRange lines i, structAttrMsg, lspSource⟩ ++
  optD (condImplAttr lines i)
    ⟨.error, fullLineRange lines i, implAttrMsg, lspSource⟩ ++
  optD (condContractType lines i)
    ⟨.warning, fullLineRange lines i, contractTypeMsg, lspSource⟩ ++
  optD (condRequireAuth lines i)
    ⟨.warning, fullLineRange lines i, requireAuthMsg, lspSource⟩ ++
  optD (condUnwrap lines i)
    ⟨.warning,
      ⟨⟨i, subIdx (trimList (lines.getD i [])) unwrapPat⟩,
       ⟨i, subIdx (trimList (lines.getD i [])) unwrapPat + 8⟩⟩,
      unwrapMsg, lspSource⟩ ++
  optD (condStorage lines i)
    ⟨.error, fullLineRange lines i, storageMsg, lspSource⟩

/-- Final value of the `hasSorobanSdkImport` flag. -/
def hasSorobanSdkImport (lines : List (List Char)) : Bool :=
  lines.any fun l => includesL (trimList l) sorobanImportPat

/-- Final value of the `hasContractStruct` flag. -/
def hasContractStruct (lines : List (List Char)) : Bool :=
  lines.any fun l => includesL (trimList l) structPat && includesL (trimList l) contractNamePat

/-- Final value of the `hasContractImpl` flag. -/
def hasContractImpl (lines : List (List Char)) : Bool :=
  lines.any fun l => includesL (trimList l) implPat && includesL (trimList l) contractNamePat

/-- Final value of the `hasContractAttribute` flag. -/
def hasContractAttribute (lines : List (List Char)) : Bool :=
  lines.any fun l => includesL (trimList l) contractAttrPat

/-- Final value of the `hasContractImplAttribute` flag. -/
def hasContractImplAttribute (lines : List (List Char)) : Bool :=
  lines.any fun l => includesL (trimList l) contractImplAttrPat

/-- The two whole-document checks appended after the per-line pass. -/
def globalDiags (lines : List (List Char)) : List Diagnostic :=
  optD (hasSorobanSdkImport lines && hasContractStruct lines &&
        !(hasContractAttribute lines))
    ⟨.error, ⟨⟨0, 0⟩, ⟨0, 0⟩⟩, globalStructMsg, lspSource⟩ ++
  optD (hasSorobanSdkImport lines && hasContractImpl lines &&
        !(hasContractImplAttribute lines))
    ⟨.error, ⟨⟨0, 0⟩, ⟨0, 0⟩⟩, globalImplMsg, lspSource⟩

/-- The diagnostic list built by the scanning loop of
`validateTextDocument` for enabled diagnostics: the per-line rule pass in
line order, followed by the whole-document checks. -/
def validationDiagnostics (text : String) : List Diagnostic :=
  let lines := splitLines text.toList
  (List.range lines.length).flatMap (lineDiags lines) ++ globalDiags lines

/-- `validateTextDocument`: if `settings.diagnostics.enable` is false the
function returns before computing anything and no diagnostic set is
published (`none`); otherwise the computed set is published (`some`). -/
def validateTextDocument (settings : StellarSettings) (text : String) :
    Option (List Diagnostic) :=
  if settings.diagnostics.enable then some (validationDiagnostics text) else none

/-! ## Completion engine -/

/-- The `CompletionItemKind` values used by the server. -/
inductive CompletionKind where
  | snippet
  | classKind
  | methodKind
  | functionKind
deriving DecidableEq, Repr

/-- A completion candidate as built in `connection.onCompletion`:
label, kind, resolution key `data`, optional insert text, optional
insert-text format (2 = snippet), optional documentation. -/
structure CompletionItem where
  label : String
  kind : CompletionKind
  data : Nat
  insertText : Option String
  insertTextFormat : Option Nat
  documentation : Option String
deriving DecidableEq, Repr

/-- The `TextDocumentPositionParams` argument of a completion request. -/
structure TextDocumentPositionParams where
  uri : String
  position : Position
deriving DecidableEq, Repr

/-- The static completion catalog built inside `connection.onCompletion`,
in declaration order. -/
def completions : List CompletionItem := [
  ⟨"#[contract]",
   .snippet, 1, some "#[contract]", none,
   some "Stellar contract attribute"⟩,
  ⟨"#[contractimpl]",
   .snippet, 2, some "#[contractimpl]", none,
   some "Stellar contract implementation attribute"⟩,
  ⟨"#[contracttype]",
   .snippet, 3, some "#[contracttype]", none,
   some "Stellar contract type attribute"⟩,
  ⟨"#[contractmeta]",
   .snippet, 4, some "#[contractmeta(\n    key = \"$\x7b1:key\x7d\",\n    val = \"$\x7b2:value\x7d\"\n)]", some 2,
   some "Stellar contract metadata attribute"⟩,
  ⟨"Env",
   .classKind, 5, none, none,
   some "Stellar environment"⟩,
  ⟨"Address",
   .classKind, 6, none, none,
   some "Stellar address type"⟩,
  ⟨"Symbol",
   .classKind, 7, none, none,
   some "Stellar symbol type"⟩,
  ⟨"Bytes",
   .classKind, 8, none, none,
   some "Stellar bytes type"⟩,
  ⟨"Map",
   .classKind, 9, none, none,
   some "Stellar map type"⟩,
  ⟨"Vec",
   .classKind, 10, none, none,
   some "Stellar vector type"⟩,
  ⟨"use soroban_sdk::\x7bcontract, contractimpl, Env\x7d;",
   .snippet, 11, some "use soroban_sdk::\x7bcontract, contractimpl, Env\x7d;", none,
   some "Common Stellar SDK imports"⟩,
  ⟨"use soroban_sdk::\x7bcontracttype, Address, Symbol\x7d;",
   .snippet, 12, some "use soroban_sdk::\x7bcontracttype, Address, Symbol\x7d;", none,
   some "Additional Stellar SDK imports"⟩,
  ⟨"env.storage().instance()",
   .methodKind, 13, some "env.storage().instance()", none,
   some "Access instance storage"⟩,
  ⟨"env.storage().persistent()",
   .methodKind, 14, some "env.storage().persistent()", none,
   some "Access persistent storage"⟩,
  ⟨"env.storage().temporary()",
   .methodKind, 15, some "env.storage().temporary()", none,
   some "Access temporary storage"⟩,
  ⟨"env.ledger().timestamp()",
   .methodKind, 16, some "env.ledger().timestamp()", none,
   some "Get current ledger timestamp"⟩,
  ⟨"env.ledger().sequence()",
   .methodKind, 17, some "env.ledger().sequence()", none,
   some "Get current ledger sequence"⟩,
  ⟨"require_auth()",
   .methodKind, 18, some "require_auth()", none,
   some "Require authentication for address"⟩,
  ⟨"symbol_short!",
   .functionKind, 19, some "symbol_short!(\"$\x7b1:symbol\x7d\")", some 2,
   some "Create a short symbol (up to 14 characters)"⟩,
  ⟨"panic!",
   .functionKind, 20, some "panic!(\"$\x7b1:message\x7d\")", some 2,
   some "Panic with a message"⟩,
  ⟨"#[only_admin]",
   .snippet, 21, some "#[only_admin]", none,
   some "OpenZeppelin: Restrict function to admin only"⟩,
  ⟨"#[only_owner]",
   .snippet, 22, some "#[only_owner]", none,
   some "OpenZeppelin: Restrict function to owner only"⟩,
  ⟨"#[only_role($\x7b1:caller\x7d, \"$\x7b2:role\x7d\")]",
   .snippet, 23, some "#[only_role($\x7b1:caller\x7d, \"$\x7b2:role\x7d\")]", some 2,
   some "OpenZeppelin: Restrict function to specific role"⟩,
  ⟨"#[has_role($\x7b1:caller\x7d, \"$\x7b2:role\x7d\")]",
   .snippet, 24, some "#[has_role($\x7b1:caller\x7d, \"$\x7b2:role\x7d\")]", some 2,
   some "OpenZeppelin: Check if caller has role (requires manual auth)"⟩,
  ⟨"#[has_any_role($\x7b1:caller\x7d, [$\x7b2:roles\x7d])]",
   .snippet, 25, some "#[has_any_role($\x7b1:caller\x7d, [\"$\x7b2:role1\x7d\", \"$\x7b3:role2\x7d\"])]", some 2,
   some "OpenZeppelin: Check if caller has any of the specified roles"⟩,
  ⟨"#[only_any_role($\x7b1:caller\x7d, [$\x7b2:roles\x7d])]",
   .snippet, 26, some "#[only_any_role($\x7b1:caller\x7d, [\"$\x7b2:role1\x7d\", \"$\x7b3:role2\x7d\"])]", some 2,
   some "OpenZeppelin: Restrict function to any of the specified roles"⟩,
  ⟨"#[when_not_paused]",
   .snippet, 27, some "#[when_not_paused]", none,
   some "OpenZeppelin: Function can only be called when contract is not paused"⟩,
  ⟨"#[when_paused]",
   .snippet, 28, some "#[when_paused]", none,
   some "OpenZeppelin: Function can only be called when contract is paused"⟩,
  ⟨"use stellar_access_control::\x7bself as access_control, AccessControl\x7d;",
   .snippet, 29, some "use stellar_access_control::\x7bself as access_control, AccessControl\x7d;", none,
   some "OpenZeppelin: Import access control module"⟩,
  ⟨"use stellar_access_control_macros::\x7bhas_role, only_admin, only_role\x7d;",
   .snippet, 30, some "use stellar_access_control_macros::\x7bhas_role, only_admin, only_role\x7d;", none,
   some "OpenZeppelin: Import access control macros"⟩,
  ⟨"use stellar_ownable::\x7bset_owner, Ownable\x7d;",
   .snippet, 31, some "use stellar_ownable::\x7bset_owner, Ownable\x7d;", none,
   some "OpenZeppelin: Import ownable module"⟩,
  ⟨"use stellar_ownable_macro::only_owner;",
   .snippet, 32, some "use stellar_ownable_macro::only_owner;", none,
   some "OpenZeppelin: Import ownable macro"⟩,
  ⟨"use stellar_pausable::\x7bself as pausable, Pausable\x7d;",
   .snippet, 33, some "use stellar_pausable::\x7bself as pausable, Pausable\x7d;", none,
   some "OpenZeppelin: Import pausable module"⟩,
  ⟨"use stellar_pausable_macros::\x7bwhen_not_paused, when_paused\x7d;",
   .snippet, 34, some "use stellar_pausable_macros::\x7bwhen_not_paused, when_paused\x7d;", none,
   some "OpenZeppelin: Import pausable macros"⟩,
  ⟨"use stellar_fungible::\x7bBase, FungibleToken\x7d;",
   .snippet, 35, some "use stellar_fungible::\x7bBase, FungibleToken\x7d;", none,
   some "OpenZeppelin: Import fungible token module"⟩,
  ⟨"use stellar_fungible::allowlist::\x7bAllowList, FungibleAllowList\x7d;",
   .snippet, 36, some "use stellar_fungible::allowlist::\x7bAllowList, FungibleAllowList\x7d;", none,
   some "OpenZeppelin: Import allowlist extension"⟩,
  ⟨"use stellar_fungible::blocklist::\x7bBlockList, FungibleBlockList\x7d;",
   .snippet, 37, some "use stellar_fungible::blocklist::\x7bBlockList, FungibleBlockList\x7d;", none,
   some "OpenZeppelin: Import blocklist extension"⟩,
  ⟨"use stellar_fungible::burnable::FungibleBurnable;",
   .snippet, 38, some "use stellar_fungible::burnable::FungibleBurnable;", none,
   some "OpenZeppelin: Import burnable extension"⟩,
  ⟨"use stellar_non_fungible::\x7bBase, NonFungibleToken\x7d;",
   .snippet, 39, some "use stellar_non_fungible::\x7bBase, NonFungibleToken\x7d;", none,
   some "OpenZeppelin: Import non-fungible token module"⟩,
  ⟨"use stellar_non_fungible::burnable::NonFungibleBurnable;",
   .snippet, 40, some "use stellar_non_fungible::burnable::NonFungibleBurnable;", none,
   some "OpenZeppelin: Import NFT burnable extension"⟩,
  ⟨"use stellar_default_impl_macro::default_impl;",
   .snippet, 41, some "use stellar_default_impl_macro::default_impl;", none,
   some "OpenZeppelin: Import default implementation macro"⟩,
  ⟨"access_control::set_admin(e, &admin);",
   .snippet, 42, some "access_control::set_admin(e, &$\x7b1:admin\x7d);", some 2,
   some "OpenZeppelin: Set contract admin"⟩,
  ⟨"access_control::grant_role_no_auth(e, &admin, &user, &role);",
   .snippet, 43, some "access_control::grant_role_no_auth(e, &$\x7b1:admin\x7d, &$\x7b2:user\x7d, &$\x7b3:role\x7d);", some 2,
   some "OpenZeppelin: Grant role without auth (use in constructor)"⟩,
  ⟨"set_owner(e, &owner);",
   .snippet, 44, some "set_owner(e, &$\x7b1:owner\x7d);", some 2,
   some "OpenZeppelin: Set contract owner"⟩,
  ⟨"pausable::pause(e);",
   .snippet, 45, some "pausable::pause(e);", none,
   some "OpenZeppelin: Pause the contract"⟩,
  ⟨"pausable::unpause(e);",
   .snippet, 46, some "pausable::unpause(e);", none,
   some "OpenZeppelin: Unpause the contract"⟩,
  ⟨"pausable::paused(e)",
   .snippet, 47, some "pausable::paused(e)", none,
   some "OpenZeppelin: Check if contract is paused"⟩,
  ⟨"Base::mint(e, &to, amount);",
   .snippet, 48, some "Base::mint(e, &$\x7b1:to\x7d, $\x7b2:amount\x7d);", some 2,
   some "OpenZeppelin: Mint tokens"⟩,
  ⟨"Base::burn(e, &from, amount);",
   .snippet, 49, some "Base::burn(e, &$\x7b1:from\x7d, $\x7b2:amount\x7d);", some 2,
   some "OpenZeppelin: Burn tokens"⟩,
  ⟨"Base::transfer(e, &from, &to, amount);",
   .snippet, 50, some "Base::transfer(e, &$\x7b1:from\x7d, &$\x7b2:to\x7d, $\x7b3:amount\x7d);", some 2,
   some "OpenZeppelin: Transfer tokens"⟩,
  ⟨"AllowList::allow_user(e, &user);",
   .snippet, 51, some "AllowList::allow_user(e, &$\x7b1:user\x7d);", some 2,
   some "OpenZeppelin: Allow user in allowlist"⟩,
  ⟨"AllowList::disallow_user(e, &user);",
   .snippet, 52, some "AllowList::disallow_user(e, &$\x7b1:user\x7d);", some 2,
   some "OpenZeppelin: Disallow user in allowlist"⟩,
  ⟨"BlockList::block_user(e, &user);",
   .snippet, 53, some "BlockList::block_user(e, &$\x7b1:user\x7d);", some 2,
   some "OpenZeppelin: Block user in blocklist"⟩,
  ⟨"BlockList::unblock_user(e, &user);",
   .snippet, 54, some "BlockList::unblock_user(e, &$\x7b1:user\x7d);", some 2,
   some "OpenZeppelin: Unblock user in blocklist"⟩,
  ⟨"#[default_impl]\n#[contractimpl]\nimpl AccessControl for Contract \x7b\x7d",
   .snippet, 55, some "#[default_impl]\n#[contractimpl]\nimpl AccessControl for $\x7b1:Contract\x7d \x7b\x7d", some 2,
   some "OpenZeppelin: Default AccessControl implementation"⟩,
  ⟨"#[default_impl]\n#[contractimpl]\nimpl Ownable for Contract \x7b\x7d",
   .snippet, 56, some "#[default_impl]\n#[contractimpl]\nimpl Ownable for $\x7b1:Contract\x7d \x7b\x7d", some 2,
   some "OpenZeppelin: Default Ownable implementation"⟩,
  ⟨"#[default_impl]\n#[contractimpl]\nimpl FungibleToken for Contract \x7b\x7d",
   .snippet, 57, some "#[default_impl]\n#[contractimpl]\nimpl FungibleToken for $\x7b1:Contract\x7d \x7b\n    type ContractType = $\x7b2:Base\x7d;\n\x7d", some 2,
   some "OpenZeppelin: Default FungibleToken implementation"⟩,
  ⟨"#[default_impl]\n#[contractimpl]\nimpl FungibleBurnable for Contract \x7b\x7d",
   .snippet, 58, some "#[default_impl]\n#[contractimpl]\nimpl FungibleBurnable for $\x7b1:Contract\x7d \x7b\x7d", some 2,
   some "OpenZeppelin: Default FungibleBurnable implementation"⟩
]

/-- The `connection.onCompletion` handler: it receives the cursor
position but builds the same static catalog for every request. -/
def onCompletion (textDocumentPosition : TextDocumentPositionParams) :
    List CompletionItem :=
  completions

/-! ## Hover resolver -/

/-- A JS `\w` word character: ASCII letter, digit, or underscore. -/
def isWordChar (c : Char) : Bool := c.isAlphanum || c == '_'

/-- The successive matches of the global regex `\b\w+\b` on the text
starting at absolute position `pos`: the maximal runs of word characters,
as `(match.index, match.index + match.length)` pairs in scan order. -/
def wordRuns : Nat → List Char → List (Nat × Nat)
  | _, [] => []
  | pos, c :: cs =>
    if isWordChar c then
      (pos, pos + 1 + (cs.takeWhile isWordChar).length) ::
        wordRuns (pos + 1 + (cs.takeWhile isWordChar).length) (cs.dropWhile isWordChar)
    else
      wordRuns (pos + 1) cs
termination_by _ l => l.length
decreasing_by
  · exact Nat.lt_succ_of_le ((List.dropWhile_suffix _).sublist.length_le)
  · exact Nat.lt_succ_self _

/-- The same regex scan as `wordRuns`, written as the character-level
state machine the regex engine runs: `pos` is the cursor, and the state
holds the start of the word currently being read, if any.  Structurally
recursive, hence directly computable; proved equal to `wordRuns`
below. -/
def wordRunsAux : Nat → Option Nat → List Char → List (Nat × Nat)
  | pos, none, [] => []
  | pos, some s, [] => [(s, pos)]
  | pos, none, c :: cs =>
    if isWordChar c then wordRunsAux (pos + 1) (some pos) cs
    else wordRunsAux (pos + 1) none cs
  | pos, some s, c :: cs =>
    if isWordChar c then wordRunsAux (pos + 1) (some s) cs
    else (s, pos) :: wordRunsAux (pos + 1) none cs

/-- The `while ((match = wordRegex.exec(text)) !== null)` loop body of
`getWordRangeAtPosition`: the first match whose inclusive span
`[index, index + length]` contains the offset. -/
def findWordRange (runs : List (Nat × Nat)) (offset : Nat) : Option (Nat × Nat) :=
  match runs with
  | [] => none
  | (s, e) :: rest =>
    if s ≤ offset ∧ offset ≤ e then some (s, e) else findWordRange rest offset

/-- `getWordRangeAtPosition(text, offset)`. -/
def getWordRangeAtPosition (text : List Char) (offset : Nat) : Option (Nat × Nat) :=
  findWordRange (wordRunsAux 0 none text) offset

/-- The static `stellarDocs` mapping of `getStellarInfo`, in declaration
order: recognized identifier to its markdown documentation. -/
def stellarDocs : List (String × String) := [
  ("Env",
   "## Env\nThe Stellar environment provides access to host functions and the execution context.\n\n### Common Methods:\n- \x60env.storage()\x60 - Access contract storage\n- \x60env.ledger()\x60 - Access ledger information\n- \x60env.current_contract_address()\x60 - Get current contract address\n- \x60env.invoker()\x60 - Get the invoker of the current contract call"),
  ("Address",
   "## Address\nRepresents a Stellar address. Can be a user account or a contract address.\n\n### Common Methods:\n- \x60address.require_auth()\x60 - Require authentication for this address\n- \x60address.clone()\x60 - Clone the address\n\n### Usage:\nUsed in contract functions to identify accounts and contracts."),
  ("Symbol",
   "## Symbol\nA symbol type in Stellar, used for efficient string-like identifiers.\n\n### Creation:\n- \x60symbol_short!(\"text\")\x60 - Create short symbol (\u00e2\u2030\u00a414 chars)\n- \x60Symbol::new(&env, \"text\")\x60 - Create symbol from string\n\n### Usage:\nCommonly used for token names, function names, and identifiers."),
  ("Bytes",
   "## Bytes\nArbitrary byte data in Stellar contracts.\n\n### Common Methods:\n- \x60bytes.len()\x60 - Get length\n- \x60bytes.get(index)\x60 - Get byte at index\n- \x60bytes.slice(start, end)\x60 - Get slice\n\n### Usage:\nUsed for storing arbitrary data, file contents, or serialized data."),
  ("Map",
   "## Map\nA key-value mapping in Stellar contracts.\n\n### Common Methods:\n- \x60map.get(key)\x60 - Get value by key\n- \x60map.set(key, value)\x60 - Set key-value pair\n- \x60map.has(key)\x60 - Check if key exists\n- \x60map.remove(key)\x60 - Remove key\n\n### Usage:\nUsed for storing associative data in contracts."),
  ("Vec",
   "## Vec\nA vector (array) type in Stellar contracts.\n\n### Common Methods:\n- \x60vec.len()\x60 - Get length\n- \x60vec.get(index)\x60 - Get element at index\n- \x60vec.push_back(value)\x60 - Add element to end\n- \x60vec.pop_back()\x60 - Remove last element\n\n### Usage:\nUsed for storing ordered collections of data."),
  ("contract",
   "## #[contract]\nAttribute to mark a struct as a Stellar contract.\n\n### Usage:\n\x60\x60\x60rust\n#[contract]\npub struct MyContract;\n\x60\x60\x60\n\n### Requirements:\n- Must be applied to a struct\n- Struct will become the contract implementation base"),
  ("contractimpl",
   "## #[contractimpl]\nAttribute to mark an impl block as a Stellar contract implementation.\n\n### Usage:\n\x60\x60\x60rust\n#[contractimpl]\nimpl MyContract \x7b\n    pub fn my_function(env: Env) -> u32 \x7b\n        // Implementation\n    \x7d\n\x7d\n\x60\x60\x60\n\n### Requirements:\n- Must be applied to impl block for contract struct\n- Contains the contract\x27s public functions"),
  ("contracttype",
   "## #[contracttype]\nAttribute to mark a type as a Stellar contract type.\n\n### Usage:\n\x60\x60\x60rust\n#[contracttype]\npub enum DataKey \x7b\n    Balance(Address),\n    Config,\n\x7d\n\n#[contracttype]\npub struct MyData \x7b\n    pub value: u32,\n\x7d\n\x60\x60\x60\n\n### Requirements:\n- Applied to enums and structs used in contract storage\n- Enables serialization for storage"),
  ("only_admin",
   "## #[only_admin] - OpenZeppelin\nRestricts function access to the contract admin only.\n\n### Usage:\n\x60\x60\x60rust\n#[only_admin]\npub fn admin_function(env: &Env) \x7b\n    // Only admin can call this\n\x7d\n\x60\x60\x60\n\n### Requirements:\n- Contract must implement AccessControl trait\n- Admin must be set during initialization"),
  ("only_owner",
   "## #[only_owner] - OpenZeppelin\nRestricts function access to the contract owner only.\n\n### Usage:\n\x60\x60\x60rust\n#[only_owner]\npub fn owner_function(env: &Env) \x7b\n    // Only owner can call this\n\x7d\n\x60\x60\x60\n\n### Requirements:\n- Contract must implement Ownable trait\n- Owner must be set during initialization"),
  ("only_role",
   "## #[only_role] - OpenZeppelin\nRestricts function access to accounts with a specific role.\n\n### Usage:\n\x60\x60\x60rust\n#[only_role(caller, \"minter\")]\npub fn mint(env: &Env, caller: Address, to: Address, amount: i128) \x7b\n    // Only accounts with \"minter\" role can call this\n\x7d\n\x60\x60\x60\n\n### Features:\n- Automatic authorization check\n- Role-based access control\n- Hierarchical role system support"),
  ("has_role",
   "## #[has_role] - OpenZeppelin\nChecks if caller has a specific role (requires manual auth).\n\n### Usage:\n\x60\x60\x60rust\n#[has_role(caller, \"manager\")]\npub fn manage(env: &Env, caller: Address) \x7b\n    caller.require_auth(); // Manual auth required\n    // Function implementation\n\x7d\n\x60\x60\x60\n\n### Features:\n- Role validation without automatic auth\n- More flexible than only_role\n- Supports complex authorization logic"),
  ("when_not_paused",
   "## #[when_not_paused] - OpenZeppelin\nRestricts function to execute only when contract is not paused.\n\n### Usage:\n\x60\x60\x60rust\n#[when_not_paused]\npub fn normal_operation(env: &Env) \x7b\n    // Only works when contract is not paused\n\x7d\n\x60\x60\x60\n\n### Features:\n- Emergency stop mechanism\n- Automatic pause state checking\n- Used for regular operations"),
  ("when_paused",
   "## #[when_paused] - OpenZeppelin\nRestricts function to execute only when contract is paused.\n\n### Usage:\n\x60\x60\x60rust\n#[when_paused]\npub fn emergency_function(env: &Env) \x7b\n    // Only works when contract is paused\n\x7d\n\x60\x60\x60\n\n### Features:\n- Emergency operations during pause\n- Automatic pause state checking\n- Used for emergency functions"),
  ("AccessControl",
   "## AccessControl - OpenZeppelin\nTrait providing role-based access control functionality.\n\n### Key Features:\n- Hierarchical role system\n- Admin role management\n- Role enumeration\n- Secure admin transfers\n\n### Common Functions:\n- \x60grant_role(account, role)\x60\n- \x60revoke_role(account, role)\x60\n- \x60has_role(account, role)\x60\n- \x60set_role_admin(role, admin_role)\x60\n\n### Usage:\nImplement with \x60#[default_impl]\x60 for basic functionality."),
  ("Ownable",
   "## Ownable - OpenZeppelin\nTrait providing single-owner access control.\n\n### Key Features:\n- Single owner model\n- Ownership transfer (2-step process)\n- Ownership renunciation\n- Simple authorization\n\n### Common Functions:\n- \x60get_owner()\x60\n- \x60transfer_ownership(new_owner)\x60\n- \x60accept_ownership()\x60\n- \x60renounce_ownership()\x60\n\n### Usage:\nSimpler alternative to AccessControl for single-owner contracts."),
  ("Pausable",
   "## Pausable - OpenZeppelin\nTrait providing emergency stop functionality.\n\n### Key Features:\n- Contract-wide pause mechanism\n- Emergency stop capability\n- State-dependent function execution\n- Owner-controlled pause/unpause\n\n### Common Functions:\n- \x60paused()\x60 - Check pause state\n- \x60pause()\x60 - Pause the contract\n- \x60unpause()\x60 - Unpause the contract\n\n### Usage:\nUse with \x60#[when_not_paused]\x60 and \x60#[when_paused]\x60 macros."),
  ("FungibleToken",
   "## FungibleToken - OpenZeppelin\nTrait for SEP-41 compliant fungible tokens.\n\n### Key Features:\n- Standard token interface\n- Transfer and approval system\n- Balance tracking\n- Metadata support\n\n### Common Functions:\n- \x60transfer(from, to, amount)\x60\n- \x60approve(owner, spender, amount)\x60\n- \x60balance(account)\x60\n- \x60total_supply()\x60\n\n### Extensions:\n- AllowList - Control who can receive tokens\n- BlockList - Block specific accounts\n- Burnable - Add burn functionality"),
  ("AllowList",
   "## AllowList - OpenZeppelin\nExtension for fungible tokens to control transfers via allowlist.\n\n### Key Features:\n- Whitelist mechanism\n- Transfer restrictions\n- Admin-controlled access\n- Override standard transfers\n\n### Common Functions:\n- \x60allow_user(user)\x60 - Add to allowlist\n- \x60disallow_user(user)\x60 - Remove from allowlist\n- \x60allowed(account)\x60 - Check allowlist status\n\n### Usage:\nOnly allowed accounts can send/receive tokens."),
  ("BlockList",
   "## BlockList - OpenZeppelin\nExtension for fungible tokens to block specific accounts.\n\n### Key Features:\n- Blacklist mechanism\n- Transfer restrictions\n- Admin-controlled blocking\n- Override standard transfers\n\n### Common Functions:\n- \x60block_user(user)\x60 - Add to blocklist\n- \x60unblock_user(user)\x60 - Remove from blocklist\n- \x60blocked(account)\x60 - Check blocked status\n\n### Usage:\nBlocked accounts cannot send/receive tokens."),
  ("require_auth",
   "## require_auth()\nStellar function to require authentication for an address.\n\n### Usage:\n\x60\x60\x60rust\npub fn protected_function(env: Env, caller: Address) \x7b\n    caller.require_auth();\n    // Function implementation\n\x7d\n\x60\x60\x60\n\n### Features:\n- Verifies the caller has signed the transaction\n- Essential for security in state-changing functions\n- Should be called early in functions that modify state"),
  ("panic_with_error",
   "## panic_with_error!\nMacro to panic with a custom error code.\n\n### Usage:\n\x60\x60\x60rust\nif condition_failed \x7b\n    panic_with_error!(env, MyError::InvalidInput);\n\x7d\n\x60\x60\x60\n\n### Features:\n- Better error reporting than plain panic\n- Allows custom error types\n- Provides structured error handling"),
  ("symbol_short",
   "## symbol_short!\nMacro to create a short symbol (up to 14 characters).\n\n### Usage:\n\x60\x60\x60rust\nlet role = symbol_short!(\"minter\");\nlet key = symbol_short!(\"balance\");\n\x60\x60\x60\n\n### Features:\n- Efficient string representation\n- Compile-time validation\n- Used for keys, roles, and identifiers"),
  ("default_impl",
   "## #[default_impl] - OpenZeppelin\nMacro to provide default trait implementations.\n\n### Usage:\n\x60\x60\x60rust\n#[default_impl]\n#[contractimpl]\nimpl AccessControl for MyContract \x7b\x7d\n\x60\x60\x60\n\n### Features:\n- Reduces boilerplate code\n- Provides standard implementations\n- Can be combined with custom implementations\n- Used with OpenZeppelin traits")
]

/-- `getStellarInfo(word)`: the exact, case-sensitive lookup
`stellarDocs[word] || null`. -/
def getStellarInfo (word : String) : Option String :=
  stellarDocs.lookup word

/-- JS `text.substring(start, end)` on the character list. -/
def wordOf (text : List Char) (s e : Nat) : String :=
  String.mk ((text.drop s).take (e - s))

/-- The `connection.onHover` handler at a resolved text and offset: the
markdown value it answers with, or `none` when it returns `null`. -/
def onHover (text : List Char) (offset : Nat) : Option String :=
  match getWordRangeAtPosition text offset with
  | none => none
  | some (s, e) => getStellarInfo (wordOf text s e)

/-! ## Lemmas about the string primitives -/

theorem includesL_iff (pat l : List Char) : includesL l pat = true ↔ pat <:+: l := by
  induction l with
  | nil => simp [includesL, List.isEmpty_iff, List.infix_nil]
  | cons c cs ih =>
    simp [includesL, List.infix_cons_iff, ih, List.isPrefixOf_iff_prefix]

theorem trimLeftList_suffix (l : List Char) : trimLeftList l <:+ l :=
  List.dropWhile_suffix _

theorem trimList_prefix_trimLeft (l : List Char) : trimList l <+: trimLeftList l := by
  have h := List.dropWhile_suffix (l := (trimLeftList l).reverse) Char.isWhitespace
  have := List.reverse_prefix.mpr h
  simpa [trimList] using this

theorem trimList_within (l : List Char) : trimList l <:+: l :=
  ((trimList_prefix_trimLeft l).isInfix).trans ((trimLeftList_suffix l).isInfix)

theorem includesL_of_trim {l pat : List Char} (h : includesL (trimList l) pat = true) :
    includesL l pat = true :=
  (includesL_iff pat l).mpr (((includesL_iff pat (trimList l)).mp h).trans (trimList_within l))

/-! ## Counting lemmas for the diagnostic list -/

theorem mem_optD {α : Bool} {d a : Diagnostic} : a ∈ optD α d ↔ α = true ∧ a = d := by
  cases α <;> simp [optD]

theorem countP_optD (p : Diagnostic → Bool) (b : Bool) (d : Diagnostic) :
    (optD b d).countP p = if b then (if p d then 1 else 0) else 0 := by
  cases b <;> simp [optD, List.countP_cons]

theorem countP_flatMap_single {α : Type} (f : Nat → List α) (p : α → Bool)
    (n i₀ : Nat) (hi : i₀ < n)
    (h0 : ∀ i, i < n → i ≠ i₀ → (f i).countP p = 0) :
    ((List.range n).flatMap f).countP p = (f i₀).countP p := by
  induction n with
  | zero => omega
  | succ n ih =>
    rw [List.range_succ, List.flatMap_append, List.countP_append]
    rcases Nat.lt_or_ge i₀ n with h | h
    · rw [ih h (fun i hi hne => h0 i (Nat.lt_succ_of_lt hi) hne)]
      have : (f n).countP p = 0 := h0 n (Nat.lt_succ_self n) (by omega)
      simp [this]
    · have hi₀ : i₀ = n := by omega
      subst hi₀
      have : ((List.range i₀).flatMap f).countP p = 0 := by
        rw [List.countP_eq_zero]
        intro a ha
        rw [List.mem_flatMap] at ha
        obtain ⟨j, hj, hja⟩ := ha
        rw [List.mem_range] at hj
        have := h0 j (Nat.lt_succ_of_lt hj) (by omega)
        rw [List.countP_eq_zero] at this
        exact this a hja
      simp [this]

theorem lineDiags_start_line {lines : List (List Char)} {i : Nat} {d : Diagnostic}
    (hd : d ∈ lineDiags lines i) : d.range.start.line = i := by
  simp only [lineDiags, List.mem_append, mem_optD] at hd
  rcases hd with ((((⟨_, rfl⟩ | ⟨_, rfl⟩) | ⟨_, rfl⟩) | ⟨_, rfl⟩) | ⟨_, rfl⟩) | ⟨_, rfl⟩ <;>
    rfl

theorem mem_globalDiags_message {lines : List (List Char)} {d : Diagnostic}
    (hd : d ∈ globalDiags lines) :
    d.message = globalStructMsg ∨ d.message = globalImplMsg := by
  simp only [globalDiags, List.mem_append, mem_optD] at hd
  rcases hd with ⟨_, rfl⟩ | ⟨_, rfl⟩
  · exact Or.inl rfl
  · exact Or.inr rfl

theorem getD_mem_of_lt {lines : List (List Char)} {i : Nat} (hi : i < lines.length) :
    lines.getD i [] ∈ lines := by
  rw [List.getD_eq_getElem lines [] hi]
  exact List.getElem_mem hi

/-! ## Claim C1 -/

/-- A document with zero recognized-dialect markers: no line contains the
`use soroban_sdk` import, a contract-struct or contract-impl declaration
marker, one of the three contract attributes, the dialect type name
`Address`, or one of the recognized call idioms `unwrap()` and
`env.storage()` — the trigger patterns of the server's rule set. -/
def markerFree (text : String) : Prop :=
  ∀ l ∈ splitLines text.toList,
    includesL l sorobanImportPat = false ∧
    ¬(includesL l structPat = true ∧ includesL l contractNamePat = true) ∧
    ¬(includesL l implPat = true ∧ includesL l contractNamePat = true) ∧
    includesL l contractAttrPat = false ∧
    includesL l contractImplAttrPat = false ∧
    includesL l contractTypeAttrPat = false ∧
    includesL l addressPat = false ∧
    includesL l unwrapPat = false ∧
    includesL l envStoragePat = false

theorem trim_includes_false {l pat : List Char} (h : includesL l pat = false) :
    includesL (trimList l) pat = false := by
  cases hx : includesL (trimList l) pat with
  | false => rfl
  | true => rw [includesL_of_trim hx] at h; exact h.symm ▸ rfl

instance (text : String) : Decidable (markerFree text) := by
  unfold markerFree
  infer_instance

/-- C1: for every document whose text contains zero recognized-dialect
markers, `validateTextDocument` publishes an empty diagnostic set: plain
host-language files yield no dialect diagnostics. -/
theorem c1_marker_free_validate_empty (text : String) (h : markerFree text) :
    validationDiagnostics text = [] ∧
    validateTextDocument defaultSettings text = some [] := by
  have hmain : validationDiagnostics text = [] := by
    have htrline : ∀ i, ∀ pat : List Char, pat ≠ [] →
        (∀ l ∈ splitLines text.toList, includesL l pat = false) →
        includesL (trimList ((splitLines text.toList).getD i [])) pat = false := by
      intro i pat hne hall
      by_cases hi : i < (splitLines text.toList).length
      · exact trim_includes_false (hall _ (getD_mem_of_lt hi))
      · rw [List.getD_eq_default _ _ (by omega)]
        show includesL [] pat = false
        simp [includesL, hne]
    have hline : ∀ i, lineDiags (splitLines text.toList) i = [] := by
      intro i
      have himp : hasSorobanImportUpTo (splitLines text.toList) i = false := by
        rw [Bool.eq_false_iff]
        intro hx
        simp only [hasSorobanImportUpTo, List.any_eq_true] at hx
        obtain ⟨j, _, hj⟩ := hx
        rw [htrline j sorobanImportPat (by decide) (fun l hl => (h l hl).1)] at hj
        exact Bool.false_ne_true hj
      have hstruct : condStructAttr (splitLines text.toList) i = false := by
        rw [Bool.eq_false_iff]
        intro hx
        simp only [condStructAttr, Bool.and_eq_true] at hx
        by_cases hi : i < (splitLines text.toList).length
        · exact (h _ (getD_mem_of_lt hi)).2.1
            ⟨includesL_of_trim hx.1.1, includesL_of_trim hx.1.2⟩
        · rw [List.getD_eq_default _ _ (by omega)] at hx
          exact absurd hx.1.1 (by decide)
      have himplattr : condImplAttr (splitLines text.toList) i = false := by
        rw [Bool.eq_false_iff]
        intro hx
        simp only [condImplAttr, Bool.and_eq_true] at hx
        by_cases hi : i < (splitLines text.toList).length
        · exact (h _ (getD_mem_of_lt hi)).2.2.1
            ⟨includesL_of_trim hx.1.1, includesL_of_trim hx.1.2⟩
        · rw [List.getD_eq_default _ _ (by omega)] at hx
          exact absurd hx.1.1 (by decide)
      have hct : condContractType (splitLines text.toList) i = false := by
        unfold condContractType
        rw [himp, Bool.and_false]
      have hra : condRequireAuth (splitLines text.toList) i = false := by
        unfold condRequireAuth
        rw [htrline i addressPat (by decide) (fun l hl => (h l hl).2.2.2.2.2.2.1),
          Bool.and_false]
      have hu : condUnwrap (splitLines text.toList) i = false := by
        unfold condUnwrap
        rw [htrline i unwrapPat (by decide) (fun l hl => (h l hl).2.2.2.2.2.2.2.1),
          Bool.false_and]
      have hs : condStorage (splitLines text.toList) i = false := by
        unfold condStorage
        rw [htrline i envStoragePat (by decide) (fun l hl => (h l hl).2.2.2.2.2.2.2.2),
          Bool.false_and, Bool.false_and, Bool.false_and]
      unfold lineDiags
      rw [hstruct, himplattr, hct, hra, hu, hs]
      rfl
    have hglob : globalDiags (splitLines text.toList) = [] := by
      have himp : hasSorobanSdkImport (splitLines text.toList) = false := by
        rw [Bool.eq_false_iff]
        intro hx
        simp only [hasSorobanSdkImport, List.any_eq_true] at hx
        obtain ⟨l, hl, hil⟩ := hx
        rw [trim_includes_false (h l hl).1] at hil
        exact Bool.false_ne_true hil
      unfold globalDiags
      rw [himp, Bool.false_and, Bool.false_and, Bool.false_and, Bool.false_and]
      rfl
    show ((List.range (splitLines text.toList).length).flatMap
        (lineDiags (splitLines text.toList)) ++ globalDiags (splitLines text.toList)) = []
    rw [List.flatMap_eq_nil_iff.mpr (fun i _ => hline i), hglob]
    rfl
  exact ⟨hmain, by simp [validateTextDocument, defaultSettings, hmain]⟩

/-- C1 witness: a concrete plain host-language file with no dialect
markers yields no diagnostics. -/
theorem c1_witness :
    markerFree "fn main() \x7b\n    let x = 5;\n    println!(\"hi\");\n\x7d\n" ∧
    validateTextDocument defaultSettings
      "fn main() \x7b\n    let x = 5;\n    println!(\"hi\");\n\x7d\n" = some [] :=
  ⟨by decide,
   (c1_marker_free_validate_empty _ (by decide)).2⟩

/-! ## Claim C2 -/

/-- The C2 scenario document: the spec's four lines preceded by a
recognized soroban_sdk import. -/
def c2Doc : String :=
  "use soroban_sdk::contract;\nstruct MyContract;\nimpl MyContract \x7b\n pub fn f(env: Env) \x7b\x7d\n\x7d\n"

/-- C2 counterexample: on the scenario document the validator emits two
errors about the missing struct attribute and two about the missing impl
attribute, not one and one. -/
theorem c2_counterexample :
    (validationDiagnostics c2Doc).countP
      (fun d => d.message == structAttrMsg || d.message == globalStructMsg) = 2 ∧
    (validationDiagnostics c2Doc).countP
      (fun d => d.message == implAttrMsg || d.message == globalImplMsg) = 2 := by
  decide

/-- C2 amended: on the scenario document the validator emits exactly four
attribute-related errors: a per-line error at the struct line, a per-line
error at the impl line, and the two whole-document errors anchored at
line 0. -/
theorem c2_amended_four_attribute_errors :
    validationDiagnostics c2Doc =
      [⟨.error, ⟨⟨1, 0⟩, ⟨1, 18⟩⟩, structAttrMsg, lspSource⟩,
       ⟨.error, ⟨⟨2, 0⟩, ⟨2, 17⟩⟩, implAttrMsg, lspSource⟩,
       ⟨.error, ⟨⟨0, 0⟩, ⟨0, 0⟩⟩, globalStructMsg, lspSource⟩,
       ⟨.error, ⟨⟨0, 0⟩, ⟨0, 0⟩⟩, globalImplMsg, lspSource⟩] := by
  decide

/-! ## Claim C5 -/

/-- C5: the completion handler is independent of the cursor position: for
any two positions in the same document it returns the identical candidate
sequence, in the same (declaration) order. -/
theorem c5_completion_position_independent
    (docUri : String) (posA posB : Position) :
    onCompletion ⟨docUri, posA⟩ = onCompletion ⟨docUri, posB⟩ := rfl

/-! ## Claim C6 -/

/-- Settings with diagnostics administratively disabled. -/
def disabledDiagnosticsSettings : StellarSettings :=
  { lsp := { enable := true, trace := { server := "off" } }
    diagnostics := { enable := false } }

/-- C6 counterexample: with diagnostics disabled, `validateTextDocument`
returns without publishing anything: it does not publish an empty
diagnostic set. -/
theorem c6_counterexample :
    validateTextDocument disabledDiagnosticsSettings "use soroban_sdk;\nstruct MyContract;"
      = none ∧
    validateTextDocument disabledDiagnosticsSettings "use soroban_sdk;\nstruct MyContract;"
      ≠ some [] := by
  decide

/-- C6 amended: whenever the resolved settings have
`diagnostics.enable = false`, `validateTextDocument` short-circuits and
publishes no diagnostic set at all, regardless of document content. -/
theorem c6_amended_disabled_publishes_nothing (settings : StellarSettings)
    (text : String) (h : settings.diagnostics.enable = false) :
    validateTextDocument settings text = none := by
  unfold validateTextDocument
  rw [h]
  rfl

/-- C6 witness: the amended theorem at concrete disabled settings and a
concrete document. -/
theorem c6_witness :
    validateTextDocument disabledDiagnosticsSettings "use soroban_sdk;\nstruct MyContract;"
      = none :=
  c6_amended_disabled_publishes_nothing disabledDiagnosticsSettings
    "use soroban_sdk;\nstruct MyContract;" rfl

/-! ## Counting diagnostics with a fixed message at a fixed line -/

theorem countP_globalDiags_zero (lines : List (List Char)) (p : Diagnostic → Bool)
    (hp : ∀ d : Diagnostic,
      d.message = globalStructMsg ∨ d.message = globalImplMsg → p d = false) :
    (globalDiags lines).countP p = 0 := by
  rw [List.countP_eq_zero]
  intro d hd
  rw [hp d (mem_globalDiags_message hd)]
  exact Bool.false_ne_true

theorem countP_validation_msgline (text : String) (M : String) (i₀ : Nat)
    (hi : i₀ < (splitLines text.toList).length)
    (hg1 : (globalStructMsg == M) = false) (hg2 : (globalImplMsg == M) = false) :
    (validationDiagnostics text).countP
        (fun d => d.message == M && d.range.start.line == i₀)
      = (lineDiags (splitLines text.toList) i₀).countP
          (fun d => d.message == M && d.range.start.line == i₀) := by
  have h0 : ∀ i, i < (splitLines text.toList).length → i ≠ i₀ →
      (lineDiags (splitLines text.toList) i).countP
        (fun d => d.message == M && d.range.start.line == i₀) = 0 := by
    intro i hilt hne
    rw [List.countP_eq_zero]
    intro d hd
    have hl := lineDiags_start_line hd
    simp [hl, hne]
  have hglob : (globalDiags (splitLines text.toList)).countP
      (fun d => d.message == M && d.range.start.line == i₀) = 0 := by
    apply countP_globalDiags_zero
    intro d hd
    rcases hd with hd | hd <;> simp [hd, hg1, hg2]
  show (((List.range (splitLines text.toList).length).flatMap
      (lineDiags (splitLines text.toList)) ++ globalDiags (splitLines text.toList)).countP _) = _
  rw [List.countP_append, hglob,
    countP_flatMap_single (lineDiags (splitLines text.toList)) _ _ i₀ hi h0]
  omega

theorem countP_lineDiags_struct (lines : List (List Char)) (i : Nat) :
    (lineDiags lines i).countP
        (fun d => d.message == structAttrMsg && d.range.start.line == i)
      = if condStructAttr lines i then 1 else 0 := by
  have m2 : (implAttrMsg == structAttrMsg) = false := by decide
  have m3 : (contractTypeMsg == structAttrMsg) = false := by decide
  have m4 : (requireAuthMsg == structAttrMsg) = false := by decide
  have m5 : (unwrapMsg == structAttrMsg) = false := by decide
  have m6 : (storageMsg == structAttrMsg) = false := by decide
  simp [lineDiags, List.countP_append, countP_optD, m2, m3, m4, m5, m6, fullLineRange]

theorem countP_lineDiags_impl (lines : List (List Char)) (i : Nat) :
    (lineDiags lines i).countP
        (fun d => d.message == implAttrMsg && d.range.start.line == i)
      = if condImplAttr lines i then 1 else 0 := by
  have m1 : (structAttrMsg == implAttrMsg) = false := by decide
  have m3 : (contractTypeMsg == implAttrMsg) = false := by decide
  have m4 : (requireAuthMsg == implAttrMsg) = false := by decide
  have m5 : (unwrapMsg == implAttrMsg) = false := by decide
  have m6 : (storageMsg == implAttrMsg) = false := by decide
  simp [lineDiags, List.countP_append, countP_optD, m1, m3, m4, m5, m6, fullLineRange]

/-! ## Claim C3 -/

/-- C3 counterexample: the document `"struct MyContract;\nuse soroban_sdk;"`
has a contract-struct declaration marker at line 0 without a preceding
attribute line, yet the validator anchors two error-severity diagnostics
at line 0 (the per-line check and the whole-document check), not exactly
one. -/
theorem c3_counterexample :
    condStructAttr (splitLines ("struct MyContract;\nuse soroban_sdk;").toList) 0 = true ∧
    (validationDiagnostics "struct MyContract;\nuse soroban_sdk;").countP
      (fun d => d.severity == Severity.error && d.range.start.line == 0) = 2 := by
  decide

/-- C3 (amended): for every document and line `i` on which the
contract-struct (resp. contract-impl) rule triggers — the trimmed line
contains both marker substrings and the previous line does not carry the
required attribute — the validator anchors at least one error-severity
diagnostic at line `i`, and exactly one diagnostic overall carries that
declaration's missing-attribute message at line `i`; further error
diagnostics may coincide at the same line. -/
theorem c3_declaration_attribute_diagnostics (text : String) (i : Nat)
    (hi : i < (splitLines text.toList).length) :
    (condStructAttr (splitLines text.toList) i = true →
      (∃ d ∈ validationDiagnostics text,
        d.severity = .error ∧ d.range.start.line = i ∧ d.message = structAttrMsg) ∧
      (validationDiagnostics text).countP
        (fun d => d.message == structAttrMsg && d.range.start.line == i) = 1) ∧
    (condImplAttr (splitLines text.toList) i = true →
      (∃ d ∈ validationDiagnostics text,
        d.severity = .error ∧ d.range.start.line = i ∧ d.message = implAttrMsg) ∧
      (validationDiagnostics text).countP
        (fun d => d.message == implAttrMsg && d.range.start.line == i) = 1) := by
  constructor
  · intro h
    constructor
    · refine ⟨⟨.error, fullLineRange (splitLines text.toList) i, structAttrMsg, lspSource⟩,
        ?_, rfl, rfl, rfl⟩
      show _ ∈ ((List.range (splitLines text.toList).length).flatMap
        (lineDiags (splitLines text.toList)) ++ globalDiags (splitLines text.toList))
      apply List.mem_append_left
      rw [List.mem_flatMap]
      refine ⟨i, List.mem_range.mpr hi, ?_⟩
      simp only [lineDiags, List.mem_append, mem_optD]
      exact Or.inl (Or.inl (Or.inl (Or.inl (Or.inl ⟨h, trivial⟩))))
    · rw [countP_validation_msgline text structAttrMsg i hi (by decide) (by decide),
        countP_lineDiags_struct, h]
      rfl
  · intro h
    constructor
    · refine ⟨⟨.error, fullLineRange (splitLines text.toList) i, implAttrMsg, lspSource⟩,
        ?_, rfl, rfl, rfl⟩
      show _ ∈ ((List.range (splitLines text.toList).length).flatMap
        (lineDiags (splitLines text.toList)) ++ globalDiags (splitLines text.toList))
      apply List.mem_append_left
      rw [List.mem_flatMap]
      refine ⟨i, List.mem_range.mpr hi, ?_⟩
      simp only [lineDiags, List.mem_append, mem_optD]
      exact Or.inl (Or.inl (Or.inl (Or.inl (Or.inr ⟨h, trivial⟩))))
    · rw [countP_validation_msgline text implAttrMsg i hi (by decide) (by decide),
        countP_lineDiags_impl, h]
      rfl

/-- C3 witness: the amended theorem applied to a concrete document whose
contract-impl declaration at line 2 lacks the `#[contractimpl]`
attribute. -/
theorem c3_witness :
    (∃ d ∈ validationDiagnostics "#[contract]\nstruct MyContract;\nimpl MyContract \x7b",
      d.severity = .error ∧ d.range.start.line = 2 ∧ d.message = implAttrMsg) ∧
    (validationDiagnostics "#[contract]\nstruct MyContract;\nimpl MyContract \x7b").countP
      (fun d => d.message == implAttrMsg && d.range.start.line == 2) = 1 :=
  (c3_declaration_attribute_diagnostics
    "#[contract]\nstruct MyContract;\nimpl MyContract \x7b" 2 (by decide)).2 (by decide)

/-! ## Claim C7 -/

theorem scanRequireAuth_range'_iff (lines : List (List Char)) (len : Nat) :
    ∀ a : Nat,
      scanRequireAuth lines (List.range' a len) = true ↔
        ∃ j, a ≤ j ∧ j < a + len ∧
          includesL (lines.getD j []) requireAuthPat = true ∧
          ∀ k, a ≤ k → k < j → includesL (lines.getD k []) closeBracePat = false := by
  induction len with
  | zero =>
    intro a
    constructor
    · intro hx
      exact absurd hx (by simp [scanRequireAuth])
    · rintro ⟨j, h1, h2, -, -⟩
      omega
  | succ n ih =>
    intro a
    have hr : List.range' a (n + 1) = a :: List.range' (a + 1) n := List.range'_succ a n 1
    rw [hr]
    show (if includesL (lines.getD a []) requireAuthPat then true
      else if includesL (lines.getD a []) closeBracePat then false
      else scanRequireAuth lines (List.range' (a + 1) n)) = true ↔ _
    by_cases hra : includesL (lines.getD a []) requireAuthPat = true
    · rw [if_pos hra]
      constructor
      · intro _
        exact ⟨a, le_refl a, by omega, hra, fun k h1 h2 => by omega⟩
      · intro _
        rfl
    · rw [if_neg hra]
      by_cases hcb : includesL (lines.getD a []) closeBracePat = true
      · rw [if_pos hcb]
        constructor
        · intro hx
          exact absurd hx (by decide)
        · rintro ⟨j, h1, h2, hRA, hall⟩
          rcases Nat.eq_or_lt_of_le h1 with rfl | hlt
          · exact absurd hRA hra
          · rw [hall a (le_refl a) hlt] at hcb
            exact absurd hcb (by decide)
      · rw [if_neg hcb]
        rw [ih (a + 1)]
        constructor
        · rintro ⟨j, h1, h2, hRA, hall⟩
          refine ⟨j, by omega, by omega, hRA, fun k hk1 hk2 => ?_⟩
          rcases Nat.eq_or_lt_of_le hk1 with rfl | hklt
          · exact Bool.eq_false_iff.mpr hcb
          · exact hall k (by omega) hk2
        · rintro ⟨j, h1, h2, hRA, hall⟩
          have hja : j ≠ a := by
            rintro rfl
            exact hra hRA
          exact ⟨j, by omega, by omega, hRA, fun k hk1 hk2 => hall k (by omega) hk2⟩

theorem lookaheadRequireAuth_iff (lines : List (List Char)) (i : Nat) :
    lookaheadRequireAuth lines i = true ↔
      ∃ j, i + 1 ≤ j ∧ j < min (i + 10) lines.length ∧
        includesL (lines.getD j []) requireAuthPat = true ∧
        ∀ k, i + 1 ≤ k → k < j → includesL (lines.getD k []) closeBracePat = false := by
  unfold lookaheadRequireAuth
  rw [scanRequireAuth_range'_iff]
  constructor
  · rintro ⟨j, h1, h2, h3, h4⟩
    exact ⟨j, h1, by omega, h3, h4⟩
  · rintro ⟨j, h1, h2, h3, h4⟩
    exact ⟨j, h1, by omega, h3, h4⟩

theorem countP_lineDiags_requireAuth (lines : List (List Char)) (i : Nat) :
    (lineDiags lines i).countP
        (fun d => d.message == requireAuthMsg && d.range.start.line == i)
      = if condRequireAuth lines i then 1 else 0 := by
  have m1 : (structAttrMsg == requireAuthMsg) = false := by decide
  have m2 : (implAttrMsg == requireAuthMsg) = false := by decide
  have m3 : (contractTypeMsg == requireAuthMsg) = false := by decide
  have m5 : (unwrapMsg == requireAuthMsg) = false := by decide
  have m6 : (storageMsg == requireAuthMsg) = false := by decide
  simp [lineDiags, List.countP_append, countP_optD, m1, m2, m3, m5, m6, fullLineRange]

/-- C7: for every document and every line triggering the
required-in-body-call check (the trimmed line contains `pub fn` and
`Address` and not `view`), the `require_auth()` warning is emitted at
that line if and only if no window line up to 9 lines below holds
`require_auth()` before the scan stops — where a closing-brace line
terminates the scan early even when the window budget is not
exhausted. -/
theorem c7_lookahead_requireauth_warning (text : String) (i : Nat)
    (hi : i < (splitLines text.toList).length)
    (hpf : includesL (trimList ((splitLines text.toList).getD i [])) pubFnPat = true)
    (hv : includesL (trimList ((splitLines text.toList).getD i [])) viewPat = false)
    (ha : includesL (trimList ((splitLines text.toList).getD i [])) addressPat = true) :
    (∃ d ∈ validationDiagnostics text,
        d.severity = .warning ∧ d.message = requireAuthMsg ∧ d.range.start.line = i) ↔
      ¬ ∃ j, i + 1 ≤ j ∧ j < min (i + 10) (splitLines text.toList).length ∧
          includesL ((splitLines text.toList).getD j []) requireAuthPat = true ∧
          ∀ k, i + 1 ≤ k → k < j →
            includesL ((splitLines text.toList).getD k []) closeBracePat = false := by
  have hcond : condRequireAuth (splitLines text.toList) i
      = !(lookaheadRequireAuth (splitLines text.toList) i) := by
    unfold condRequireAuth
    rw [hpf, hv, ha]
    cases lookaheadRequireAuth (splitLines text.toList) i <;> rfl
  constructor
  · rintro ⟨d, hd, -, hmsg, hline⟩
    intro hex
    have hlk : lookaheadRequireAuth (splitLines text.toList) i = true :=
      (lookaheadRequireAuth_iff _ i).mpr hex
    have hc : condRequireAuth (splitLines text.toList) i = false := by
      rw [hcond, hlk]
      rfl
    have hpos : 0 < (validationDiagnostics text).countP
        (fun d => d.message == requireAuthMsg && d.range.start.line == i) :=
      List.countP_pos_iff.mpr ⟨d, hd, by simp [hmsg, hline]⟩
    rw [countP_validation_msgline text requireAuthMsg i hi (by decide) (by decide),
      countP_lineDiags_requireAuth, hc] at hpos
    exact absurd hpos (by simp)
  · intro hex
    have hlk : lookaheadRequireAuth (splitLines text.toList) i = false := by
      cases hl : lookaheadRequireAuth (splitLines text.toList) i with
      | false => rfl
      | true => exact absurd ((lookaheadRequireAuth_iff _ i).mp hl) hex
    have hc : condRequireAuth (splitLines text.toList) i = true := by
      rw [hcond, hlk]
      rfl
    refine ⟨⟨.warning, fullLineRange (splitLines text.toList) i, requireAuthMsg, lspSource⟩,
      ?_, rfl, rfl, rfl⟩
    show _ ∈ ((List.range (splitLines text.toList).length).flatMap
      (lineDiags (splitLines text.toList)) ++ globalDiags (splitLines text.toList))
    apply List.mem_append_left
    rw [List.mem_flatMap]
    refine ⟨i, List.mem_range.mpr hi, ?_⟩
    simp only [lineDiags, List.mem_append, mem_optD]
    exact Or.inl (Or.inl (Or.inr ⟨hc, trivial⟩))

/-- C7 witness: on a document whose function body closes before a later
`require_auth()` line, the scan stops at the closing brace and the
warning is emitted. -/
theorem c7_witness :
    ∃ d ∈ validationDiagnostics
        "pub fn pay(env: Env, to: Address) \x7b\n let x = 1;\n\x7d\n to.require_auth();",
      d.severity = .warning ∧ d.message = requireAuthMsg ∧ d.range.start.line = 0 :=
  (c7_lookahead_requireauth_warning
      "pub fn pay(env: Env, to: Address) \x7b\n let x = 1;\n\x7d\n to.require_auth();"
      0 (by decide) (by decide) (by decide) (by decide)).mpr
    (fun hex => by
      have hlk : lookaheadRequireAuth
          (splitLines ("pub fn pay(env: Env, to: Address) \x7b\n let x = 1;\n\x7d\n to.require_auth();").toList)
          0 = false := by decide
      rw [(lookaheadRequireAuth_iff _ 0).mpr hex] at hlk
      exact absurd hlk (by decide))

/-! ## Claim C10 -/

theorem isPrefixOf_cons_false {p₀ w : Char} {rest l : List Char} (hne : p₀ ≠ w) :
    (p₀ :: rest).isPrefixOf (w :: l) = false := by
  simp [List.isPrefixOf, hne]

theorem subIdx_ws_append (m pat : List Char) (p₀ : Char) (rest : List Char)
    (hpat : pat = p₀ :: rest) (hp₀ : Char.isWhitespace p₀ = false) :
    ∀ ws : List Char, (∀ c ∈ ws, Char.isWhitespace c = true) →
      subIdx (ws ++ m) pat = ws.length + subIdx m pat := by
  intro ws
  induction ws with
  | nil => intro _; simp
  | cons w ws' ih =>
    intro hws
    have hwne : p₀ ≠ w := by
      intro he
      rw [he, hws w (List.mem_cons_self w ws')] at hp₀
      exact absurd hp₀ (by decide)
    show subIdx (w :: (ws' ++ m)) pat = (ws'.length + 1) + subIdx m pat
    rw [subIdx, hpat, isPrefixOf_cons_false hwne]
    rw [if_neg (by decide), ← hpat, ih (fun c hc => hws c (List.mem_cons_of_mem w hc))]
    omega

theorem isPrefixOf_append_ws (t : List Char) (ht : ∀ c ∈ t, Char.isWhitespace c = true) :
    ∀ pat m : List Char, (∀ c ∈ pat, Char.isWhitespace c = false) →
      pat.isPrefixOf (m ++ t) = pat.isPrefixOf m := by
  intro pat
  induction pat with
  | nil => intro m _; simp [List.isPrefixOf]
  | cons p ps ih =>
    intro m hp
    cases m with
    | nil =>
      show (p :: ps).isPrefixOf t = false
      cases t with
      | nil => rfl
      | cons c t' =>
        have hne : p ≠ c := by
          intro he
          have h1 := hp p (List.mem_cons_self p ps)
          rw [he, ht c (List.mem_cons_self c t')] at h1
          exact absurd h1 (by decide)
        exact isPrefixOf_cons_false hne
    | cons a m' =>
      show (p :: ps).isPrefixOf (a :: (m' ++ t)) = (p :: ps).isPrefixOf (a :: m')
      simp only [List.isPrefixOf]
      rw [ih m' (fun c hc => hp c (List.mem_cons_of_mem p hc))]

theorem subIdx_append_ws_right (t pat : List Char)
    (hne : pat ≠ [])
    (hp : ∀ c ∈ pat, Char.isWhitespace c = false)
    (ht : ∀ c ∈ t, Char.isWhitespace c = true) :
    ∀ m : List Char, includesL m pat = true → subIdx (m ++ t) pat = subIdx m pat := by
  intro m
  induction m with
  | nil =>
    intro hin
    rw [show includesL [] pat = pat.isEmpty from rfl, List.isEmpty_iff] at hin
    exact absurd hin hne
  | cons a m' ih =>
    intro hin
    show subIdx (a :: (m' ++ t)) pat = subIdx (a :: m') pat
    rw [subIdx, subIdx]
    have hpre : pat.isPrefixOf (a :: m' ++ t) = pat.isPrefixOf (a :: m') :=
      isPrefixOf_append_ws t ht pat (a :: m') hp
    rw [List.cons_append] at hpre
    rw [hpre]
    by_cases hc : pat.isPrefixOf (a :: m') = true
    · rw [if_pos hc, if_pos hc]
    · rw [if_neg hc, if_neg hc]
      have hin' : includesL m' pat = true := by
        have : (pat.isPrefixOf (a :: m') || includesL m' pat) = true := hin
        rcases Bool.or_eq_true_iff.mp this with h | h
        · exact absurd h hc
        · exact h
      rw [ih hin']

theorem trimLeft_decomp (l : List Char) :
    ∃ t : List Char, trimLeftList l = trimList l ++ t ∧
      ∀ c ∈ t, Char.isWhitespace c = true := by
  refine ⟨((trimLeftList l).reverse.takeWhile Char.isWhitespace).reverse, ?_, ?_⟩
  · have h : (List.takeWhile Char.isWhitespace (trimLeftList l).reverse
        ++ List.dropWhile Char.isWhitespace (trimLeftList l).reverse).reverse
        = (trimLeftList l).reverse.reverse := by
      rw [List.takeWhile_append_dropWhile]
    rw [List.reverse_append, List.reverse_reverse] at h
    exact h.symm
  · intro c hc
    rw [List.mem_reverse] at hc
    exact List.mem_takeWhile_imp hc

theorem subIdx_trim_shift (l pat : List Char) (p₀ : Char) (rest : List Char)
    (hpat : pat = p₀ :: rest)
    (hp : ∀ c ∈ pat, Char.isWhitespace c = false)
    (hin : includesL (trimList l) pat = true) :
    subIdx l pat
      = (l.takeWhile Char.isWhitespace).length + subIdx (trimList l) pat := by
  obtain ⟨t, ht, htws⟩ := trimLeft_decomp l
  have hp₀ : Char.isWhitespace p₀ = false := hp p₀ (hpat ▸ List.mem_cons_self p₀ rest)
  calc subIdx l pat
      = subIdx (l.takeWhile Char.isWhitespace ++ trimLeftList l) pat := by
        rw [show l.takeWhile Char.isWhitespace ++ trimLeftList l = l from
          List.takeWhile_append_dropWhile Char.isWhitespace l]
    _ = (l.takeWhile Char.isWhitespace).length + subIdx (trimLeftList l) pat :=
        subIdx_ws_append (trimLeftList l) pat p₀ rest hpat hp₀ _
          (fun c hc => List.mem_takeWhile_imp hc)
    _ = (l.takeWhile Char.isWhitespace).length + subIdx (trimList l) pat := by
        rw [ht, subIdx_append_ws_right t pat (by rw [hpat]; exact List.cons_ne_nil p₀ rest)
          hp htws (trimList l) hin]

theorem countP_lineDiags_unwrap (lines : List (List Char)) (i : Nat) :
    (lineDiags lines i).countP
        (fun d => d.message == unwrapMsg && d.range.start.line == i)
      = if condUnwrap lines i then 1 else 0 := by
  have m1 : (structAttrMsg == unwrapMsg) = false := by decide
  have m2 : (implAttrMsg == unwrapMsg) = false := by decide
  have m3 : (contractTypeMsg == unwrapMsg) = false := by decide
  have m4 : (requireAuthMsg == unwrapMsg) = false := by decide
  have m6 : (storageMsg == unwrapMsg) = false := by decide
  simp [lineDiags, List.countP_append, countP_optD, m1, m2, m3, m4, m6, fullLineRange]

/-- C10: for every line containing `unwrap()` and not `unwrap_or`, the
validator emits exactly one `unwrap()` warning at that line, whose
character range is the index of `unwrap()` in the whitespace-trimmed line
(`start` to `start + 8`); the index of `unwrap()` in the untrimmed line
equals the leading-whitespace width plus the reported start, so for
indented lines the reported range sits left of the token's actual column
by exactly the indentation width. -/
theorem c10_unwrap_range_trimmed (text : String) (i : Nat)
    (hi : i < (splitLines text.toList).length)
    (hu : includesL (trimList ((splitLines text.toList).getD i [])) unwrapPat = true)
    (hno : includesL (trimList ((splitLines text.toList).getD i [])) unwrapOrPat = false) :
    (∃ d ∈ validationDiagnostics text,
        d.severity = .warning ∧ d.message = unwrapMsg ∧ d.range.start.line = i ∧
        d.range.start.character
          = subIdx (trimList ((splitLines text.toList).getD i [])) unwrapPat ∧
        d.range.stop.character
          = subIdx (trimList ((splitLines text.toList).getD i [])) unwrapPat + 8) ∧
    (validationDiagnostics text).countP
        (fun d => d.message == unwrapMsg && d.range.start.line == i) = 1 ∧
    subIdx ((splitLines text.toList).getD i []) unwrapPat
      = (((splitLines text.toList).getD i []).takeWhile Char.isWhitespace).length
        + subIdx (trimList ((splitLines text.toList).getD i [])) unwrapPat := by
  have hc : condUnwrap (splitLines text.toList) i = true := by
    unfold condUnwrap
    rw [hu, hno]
    rfl
  refine ⟨?_, ?_, ?_⟩
  · refine ⟨⟨.warning,
      ⟨⟨i, subIdx (trimList ((splitLines text.toList).getD i [])) unwrapPat⟩,
       ⟨i, subIdx (trimList ((splitLines text.toList).getD i [])) unwrapPat + 8⟩⟩,
      unwrapMsg, lspSource⟩, ?_, rfl, rfl, rfl, rfl, rfl⟩
    show _ ∈ ((List.range (splitLines text.toList).length).flatMap
      (lineDiags (splitLines text.toList)) ++ globalDiags (splitLines text.toList))
    apply List.mem_append_left
    rw [List.mem_flatMap]
    refine ⟨i, List.mem_range.mpr hi, ?_⟩
    simp only [lineDiags, List.mem_append, mem_optD]
    exact Or.inl (Or.inr ⟨hc, trivial⟩)
  · rw [countP_validation_msgline text unwrapMsg i hi (by decide) (by decide),
      countP_lineDiags_unwrap, hc]
    rfl
  · exact subIdx_trim_shift _ unwrapPat 'u' "nwrap()".toList (by decide) (by decide) hu

/-- C10 witness: for the indented line `"   x.unwrap();"` the reported
range is characters 2 to 10 of the trimmed line, while the token actually
sits at column 5 = 3 + 2 of the untrimmed line. -/
theorem c10_witness :
    (∃ d ∈ validationDiagnostics "   x.unwrap();",
        d.severity = .warning ∧ d.message = unwrapMsg ∧ d.range.start.line = 0 ∧
        d.range.start.character
          = subIdx (trimList ((splitLines ("   x.unwrap();").toList).getD 0 [])) unwrapPat ∧
        d.range.stop.character
          = subIdx (trimList ((splitLines ("   x.unwrap();").toList).getD 0 [])) unwrapPat + 8) ∧
    (validationDiagnostics "   x.unwrap();").countP
        (fun d => d.message == unwrapMsg && d.range.start.line == 0) = 1 ∧
    subIdx ((splitLines ("   x.unwrap();").toList).getD 0 []) unwrapPat
      = (((splitLines ("   x.unwrap();").toList).getD 0 []).takeWhile Char.isWhitespace).length
        + subIdx (trimList ((splitLines ("   x.unwrap();").toList).getD 0 [])) unwrapPat :=
  c10_unwrap_range_trimmed "   x.unwrap();" 0 (by decide) (by decide) (by decide)

/-! ## Claim C8 -/

theorem splitLines_length_pos (l : List Char) : 0 < (splitLines l).length := by
  cases l with
  | nil => simp [splitLines]
  | cons c cs =>
    rw [splitLines]
    by_cases h : c = '\n'
    · rw [if_pos h]
      simp
    · rw [if_neg h]
      cases hsp : splitLines cs with
      | nil => simp
      | cons l ls => simp

/-- C8: `validateTextDocument` is a total computable function of the
document text: with diagnostics enabled it always publishes the computed
list, and every diagnostic in it is well formed — a known severity, a
single-line range with ordered character offsets, a line index inside the
document, and the `stellar-lsp` source tag.  The worst case for
unrecognized input is the empty list. -/
theorem c8_validate_total_wellformed (text : String) :
    validateTextDocument defaultSettings text = some (validationDiagnostics text) ∧
    ∀ d ∈ validationDiagnostics text,
      (d.severity = .error ∨ d.severity = .warning) ∧
      d.range.start.line = d.range.stop.line ∧
      d.range.start.character ≤ d.range.stop.character ∧
      d.range.start.line < (splitLines text.toList).length ∧
      d.source = lspSource := by
  constructor
  · rfl
  · intro d hd
    rcases List.mem_append.mp hd with hd | hd
    · rw [List.mem_flatMap] at hd
      obtain ⟨i, hi, hd'⟩ := hd
      rw [List.mem_range] at hi
      simp only [lineDiags, List.mem_append, mem_optD] at hd'
      rcases hd' with ((((⟨-, rfl⟩ | ⟨-, rfl⟩) | ⟨-, rfl⟩) | ⟨-, rfl⟩) | ⟨-, rfl⟩) | ⟨-, rfl⟩
      · exact ⟨Or.inl rfl, rfl, Nat.zero_le _, hi, rfl⟩
      · exact ⟨Or.inl rfl, rfl, Nat.zero_le _, hi, rfl⟩
      · exact ⟨Or.inr rfl, rfl, Nat.zero_le _, hi, rfl⟩
      · exact ⟨Or.inr rfl, rfl, Nat.zero_le _, hi, rfl⟩
      · exact ⟨Or.inr rfl, rfl, Nat.le_add_right _ _, hi, rfl⟩
      · exact ⟨Or.inl rfl, rfl, Nat.zero_le _, hi, rfl⟩
    · simp only [globalDiags, List.mem_append, mem_optD] at hd
      rcases hd with ⟨-, rfl⟩ | ⟨-, rfl⟩
      · exact ⟨Or.inl rfl, rfl, Nat.le_refl _, splitLines_length_pos _, rfl⟩
      · exact ⟨Or.inl rfl, rfl, Nat.le_refl _, splitLines_length_pos _, rfl⟩

/-- C8 witness: the theorem instantiated at a concrete document. -/
theorem c8_witness :
    validateTextDocument defaultSettings "x.unwrap()"
      = some (validationDiagnostics "x.unwrap()") ∧
    ∀ d ∈ validationDiagnostics "x.unwrap()",
      (d.severity = .error ∨ d.severity = .warning) ∧
      d.range.start.line = d.range.stop.line ∧
      d.range.start.character ≤ d.range.stop.character ∧
      d.range.start.line < (splitLines ("x.unwrap()").toList).length ∧
      d.source = lspSource :=
  c8_validate_total_wellformed "x.unwrap()"

/-! ## Word spans: the declarative reading of the regex matches -/

/-- The spec-side notion of the token at a span: `[s, e)` is a maximal
run of word characters of `text` — nonempty, within bounds, all word
characters, not preceded and not followed by a word character. -/
def WordSpan (text : List Char) (s e : Nat) : Prop :=
  s < e ∧ e ≤ text.length ∧
  (∀ k, k < e → s ≤ k → isWordChar (text.getD k ' ') = true) ∧
  (s = 0 ∨ isWordChar (text.getD (s - 1) ' ') = false) ∧
  (e = text.length ∨ isWordChar (text.getD e ' ') = false)

instance (text : List Char) (s e : Nat) : Decidable (WordSpan text s e) := by
  unfold WordSpan
  infer_instance

theorem wordRuns_shift (pos : Nat) (l : List Char) :
    ∀ q : Nat, wordRuns (pos + q) l
      = (wordRuns pos l).map (fun p => (p.1 + q, p.2 + q)) := by
  induction pos, l using wordRuns.induct with
  | case1 pos =>
    intro q
    rw [wordRuns, wordRuns]
    rfl
  | case2 pos c cs h ih =>
    intro q
    rw [wordRuns, wordRuns, if_pos h, if_pos h]
    have e1 : pos + q + 1 + (cs.takeWhile isWordChar).length
        = pos + 1 + (cs.takeWhile isWordChar).length + q := by omega
    rw [e1, ih q, List.map_cons]
  | case3 pos c cs h ih =>
    intro q
    rw [wordRuns, wordRuns, if_neg h, if_neg h]
    have e1 : pos + q + 1 = pos + 1 + q := by omega
    rw [e1, ih q]

theorem takeWhile_getD_word {cs : List Char} {k : Nat}
    (hk : k < (cs.takeWhile isWordChar).length) :
    isWordChar (cs.getD k ' ') = true := by
  obtain ⟨r, hr⟩ := List.takeWhile_prefix (l := cs) isWordChar
  have hget : cs.getD k ' ' = (cs.takeWhile isWordChar).getD k ' ' := by
    conv_lhs => rw [← hr]
    exact List.getD_append _ _ _ _ hk
  rw [hget, List.getD_eq_getElem _ _ hk]
  exact List.mem_takeWhile_imp (List.getElem_mem hk)

theorem takeWhile_length_ge {cs : List Char} {m : Nat} (hm : m ≤ cs.length)
    (h : ∀ k, k < m → isWordChar (cs.getD k ' ') = true) :
    m ≤ (cs.takeWhile isWordChar).length := by
  induction cs generalizing m with
  | nil => simpa using hm
  | cons a cs ih =>
    cases m with
    | zero => omega
    | succ m' =>
      have ha : isWordChar a = true := h 0 (Nat.succ_pos m')
      rw [List.takeWhile_cons_of_pos ha]
      simp only [List.length_cons]
      have hrec := ih (m := m') (by simpa using hm) (fun k hk => by
        have hx := h (k + 1) (by omega)
        rwa [List.getD_cons_succ] at hx)
      omega

theorem dropWhile_head_not_word :
    ∀ (cs : List Char) {x : Char} {xs : List Char},
      cs.dropWhile isWordChar = x :: xs → isWordChar x = false := by
  intro cs
  induction cs with
  | nil =>
    intro x xs h
    exact absurd h (by simp)
  | cons a cs ih =>
    intro x xs h
    by_cases ha : isWordChar a = true
    · rw [List.dropWhile_cons_of_pos ha] at h
      exact ih h
    · rw [List.dropWhile_cons_of_neg ha] at h
      injection h with h1 h2
      subst h1
      exact Bool.eq_false_iff.mpr ha

theorem getD_append_add (a b : List Char) (k : Nat) :
    (a ++ b).getD (a.length + k) ' ' = b.getD k ' ' := by
  rw [List.getD_append_right _ _ _ _ (Nat.le_add_right _ _)]
  congr 1
  omega

theorem getD_takeWhile_add (cs : List Char) (k : Nat) :
    cs.getD ((cs.takeWhile isWordChar).length + k) ' '
      = (cs.dropWhile isWordChar).getD k ' ' := by
  have h := getD_append_add (cs.takeWhile isWordChar) (cs.dropWhile isWordChar) k
  rwa [List.takeWhile_append_dropWhile] at h

theorem wordSpan_cons_iff {c : Char} {cs : List Char} (hc : isWordChar c = false)
    (s e : Nat) : WordSpan (c :: cs) (s + 1) (e + 1) ↔ WordSpan cs s e := by
  unfold WordSpan
  constructor
  · rintro ⟨h1, h2, h3, h4, h5⟩
    refine ⟨by omega, by simp only [List.length_cons] at h2; omega, ?_, ?_, ?_⟩
    · intro k hk hsk
      have hx := h3 (k + 1) (by omega) (by omega)
      rwa [List.getD_cons_succ] at hx
    · rcases Nat.eq_zero_or_pos s with rfl | hs
      · exact Or.inl rfl
      · rcases h4 with h4 | h4
        · omega
        · right
          obtain ⟨s', rfl⟩ : ∃ s', s = s' + 1 := ⟨s - 1, by omega⟩
          have he : s' + 1 + 1 - 1 = s' + 1 := by omega
          rw [he, List.getD_cons_succ] at h4
          have he2 : s' + 1 - 1 = s' := by omega
          rwa [he2]
    · rcases h5 with h5 | h5
      · left
        simp only [List.length_cons] at h5
        omega
      · right
        rwa [List.getD_cons_succ] at h5
  · rintro ⟨h1, h2, h3, h4, h5⟩
    refine ⟨by omega, by simp only [List.length_cons]; omega, ?_, ?_, ?_⟩
    · intro k hk hsk
      obtain ⟨k', rfl⟩ : ∃ k', k = k' + 1 := ⟨k - 1, by omega⟩
      rw [List.getD_cons_succ]
      exact h3 k' (by omega) (by omega)
    · rcases Nat.eq_zero_or_pos s with rfl | hs
      · right
        have he : 0 + 1 - 1 = 0 := by omega
        rw [he]
        exact hc
      · right
        rcases h4 with h4 | h4
        · omega
        · obtain ⟨s', rfl⟩ : ∃ s', s = s' + 1 := ⟨s - 1, by omega⟩
          have he : s' + 1 + 1 - 1 = s' + 1 := by omega
          rw [he, List.getD_cons_succ]
          have he2 : s' + 1 - 1 = s' := by omega
          rwa [he2] at h4
    · rcases h5 with rfl | h5
      · left
        simp only [List.length_cons]
      · right
        rwa [List.getD_cons_succ]

theorem wordSpan_word_block_iff {c : Char} {cs : List Char} (hc : isWordChar c = true)
    (s e : Nat) :
    WordSpan (c :: cs) s e ↔
      ((s = 0 ∧ e = 1 + (cs.takeWhile isWordChar).length) ∨
       (∃ s' e', WordSpan (cs.dropWhile isWordChar) s' e' ∧
         s = s' + 1 + (cs.takeWhile isWordChar).length ∧
         e = e' + 1 + (cs.takeWhile isWordChar).length)) := by
  have hlen : cs.length
      = (cs.takeWhile isWordChar).length + (cs.dropWhile isWordChar).length := by
    conv_lhs => rw [← List.takeWhile_append_dropWhile isWordChar cs]
    exact List.length_append _ _
  constructor
  · rintro ⟨h1, h2, h3, h4, h5⟩
    simp only [List.length_cons] at h2
    rcases Nat.eq_zero_or_pos s with rfl | hs
    · left
      refine ⟨rfl, ?_⟩
      have he1 : e - 1 ≤ (cs.takeWhile isWordChar).length := by
        apply takeWhile_length_ge (by omega)
        intro k hk
        have hx := h3 (k + 1) (by omega) (by omega)
        rwa [List.getD_cons_succ] at hx
      by_contra hne
      have he2 : e ≤ (cs.takeWhile isWordChar).length := by omega
      rcases h5 with h5 | h5
      · simp only [List.length_cons] at h5
        omega
      · obtain ⟨e', rfl⟩ : ∃ e', e = e' + 1 := ⟨e - 1, by omega⟩
        rw [List.getD_cons_succ] at h5
        have hw : isWordChar (cs.getD e' ' ') = true := takeWhile_getD_word (by omega)
        rw [hw] at h5
        exact absurd h5 (by decide)
    · right
      have hs2 : s ≥ (cs.takeWhile isWordChar).length + 2 := by
        rcases h4 with h4 | h4
        · omega
        · by_contra hlt
          rcases Nat.eq_zero_or_pos (s - 1) with hz | hpos
          · have he : s - 1 = 0 := hz
            rw [he, List.getD_cons_zero, hc] at h4
            exact absurd h4 (by decide)
          · obtain ⟨u, hu⟩ : ∃ u, s - 1 = u + 1 := ⟨s - 2, by omega⟩
            rw [hu, List.getD_cons_succ] at h4
            have hw : isWordChar (cs.getD u ' ') = true :=
              takeWhile_getD_word (by omega)
            rw [hw] at h4
            exact absurd h4 (by decide)
      refine ⟨s - 1 - (cs.takeWhile isWordChar).length,
        e - 1 - (cs.takeWhile isWordChar).length, ⟨by omega, by omega, ?_, ?_, ?_⟩,
        by omega, by omega⟩
      · intro k hk hsk
        have hx := h3 (1 + (cs.takeWhile isWordChar).length + k) (by omega) (by omega)
        obtain ⟨v, hv⟩ : ∃ v, 1 + (cs.takeWhile isWordChar).length + k = v + 1 :=
          ⟨(cs.takeWhile isWordChar).length + k, by omega⟩
        rw [hv, List.getD_cons_succ] at hx
        have hv2 : v = (cs.takeWhile isWordChar).length + k := by omega
        rw [hv2, getD_takeWhile_add] at hx
        exact hx
      · right
        rcases h4 with h4 | h4
        · omega
        · obtain ⟨u, hu⟩ : ∃ u, s - 1 = u + 1 := ⟨s - 2, by omega⟩
          rw [hu, List.getD_cons_succ] at h4
          have hu2 : u = (cs.takeWhile isWordChar).length
              + (s - 1 - (cs.takeWhile isWordChar).length - 1) := by omega
          rw [hu2, getD_takeWhile_add] at h4
          exact h4
      · rcases h5 with h5 | h5
        · left
          simp only [List.length_cons] at h5
          omega
        · right
          obtain ⟨u, hu⟩ : ∃ u, e = u + 1 := ⟨e - 1, by omega⟩
          rw [hu, List.getD_cons_succ] at h5
          have hu2 : u = (cs.takeWhile isWordChar).length
              + (e - 1 - (cs.takeWhile isWordChar).length) := by omega
          rw [hu2, getD_takeWhile_add] at h5
          exact h5
  · rintro (⟨rfl, rfl⟩ | ⟨s', e', ⟨h1', h2', h3', h4', h5'⟩, rfl, rfl⟩)
    · refine ⟨by omega, by simp only [List.length_cons]; omega, ?_, Or.inl rfl, ?_⟩
      · intro k hk _
        rcases Nat.eq_zero_or_pos k with rfl | hkpos
        · rwa [List.getD_cons_zero]
        · obtain ⟨k', rfl⟩ : ∃ k', k = k' + 1 := ⟨k - 1, by omega⟩
          rw [List.getD_cons_succ]
          exact takeWhile_getD_word (by omega)
      · cases hd : cs.dropWhile isWordChar with
        | nil =>
          left
          simp only [List.length_cons]
          rw [hlen, hd]
          simp
          omega
        | cons x xs =>
          right
          obtain ⟨u, hu⟩ : ∃ u, 1 + (cs.takeWhile isWordChar).length = u + 1 :=
            ⟨(cs.takeWhile isWordChar).length, by omega⟩
          rw [hu, List.getD_cons_succ]
          have hu2 : u = (cs.takeWhile isWordChar).length + 0 := by omega
          rw [hu2, getD_takeWhile_add, hd, List.getD_cons_zero]
          exact dropWhile_head_not_word cs hd
    · have hs'pos : 1 ≤ s' := by
        by_contra hz
        have hz0 : s' = 0 := by omega
        subst hz0
        have hx := h3' 0 h1' (Nat.le_refl 0)
        cases hd : cs.dropWhile isWordChar with
        | nil =>
          rw [hd] at h2'
          simp at h2'
          omega
        | cons x xs =>
          rw [hd, List.getD_cons_zero] at hx
          rw [dropWhile_head_not_word cs hd] at hx
          exact absurd hx (by decide)
      refine ⟨by omega, ?_, ?_, ?_, ?_⟩
      · simp only [List.length_cons]
        omega
      · intro k hk hsk
        obtain ⟨u, hu⟩ : ∃ u, k = u + 1 := ⟨k - 1, by omega⟩
        rw [hu, List.getD_cons_succ]
        have hu2 : u = (cs.takeWhile isWordChar).length
            + (k - 1 - (cs.takeWhile isWordChar).length) := by omega
        rw [hu2, getD_takeWhile_add]
        exact h3' _ (by omega) (by omega)
      · right
        obtain ⟨u, hu⟩ : ∃ u, s' + 1 + (cs.takeWhile isWordChar).length - 1 = u + 1 :=
          ⟨s' + (cs.takeWhile isWordChar).length - 1, by omega⟩
        rw [hu, List.getD_cons_succ]
        have hu2 : u = (cs.takeWhile isWordChar).length + (s' - 1) := by omega
        rw [hu2, getD_takeWhile_add]
        rcases h4' with h4' | h4'
        · omega
        · exact h4'
      · rcases h5' with h5' | h5'
        · left
          simp only [List.length_cons]
          omega
        · right
          obtain ⟨u, hu⟩ : ∃ u, e' + 1 + (cs.takeWhile isWordChar).length = u + 1 :=
            ⟨e' + (cs.takeWhile isWordChar).length, by omega⟩
          rw [hu, List.getD_cons_succ]
          have hu2 : u = (cs.takeWhile isWordChar).length + e' := by omega
          rw [hu2, getD_takeWhile_add]
          exact h5'

theorem wordRunsAux_eq (l : List Char) : ∀ pos : Nat,
    wordRunsAux pos none l = wordRuns pos l ∧
    ∀ s : Nat, wordRunsAux pos (some s) l
      = (s, pos + (l.takeWhile isWordChar).length) ::
          wordRuns (pos + (l.takeWhile isWordChar).length) (l.dropWhile isWordChar) := by
  induction l with
  | nil =>
    intro pos
    constructor
    · rw [wordRuns]
      rfl
    · intro s
      simp [wordRunsAux, wordRuns]
  | cons c cs ih =>
    intro pos
    by_cases hc : isWordChar c = true
    · constructor
      · show (if isWordChar c then wordRunsAux (pos + 1) (some pos) cs
          else wordRunsAux (pos + 1) none cs) = _
        rw [if_pos hc, wordRuns, if_pos hc, (ih (pos + 1)).2 pos]
      · intro s
        show (if isWordChar c then wordRunsAux (pos + 1) (some s) cs
          else (s, pos) :: wordRunsAux (pos + 1) none cs) = _
        rw [if_pos hc, (ih (pos + 1)).2 s,
          List.takeWhile_cons_of_pos hc, List.dropWhile_cons_of_pos hc]
        simp only [List.length_cons]
        have e1 : pos + 1 + (cs.takeWhile isWordChar).length
            = pos + ((cs.takeWhile isWordChar).length + 1) := by omega
        rw [e1]
    · have hc' : isWordChar c = false := Bool.eq_false_iff.mpr hc
      constructor
      · show (if isWordChar c then wordRunsAux (pos + 1) (some pos) cs
          else wordRunsAux (pos + 1) none cs) = _
        rw [hc', if_neg (by decide), wordRuns, if_neg (by rw [hc']; decide)]
        exact (ih (pos + 1)).1
      · intro s
        show (if isWordChar c then wordRunsAux (pos + 1) (some s) cs
          else (s, pos) :: wordRunsAux (pos + 1) none cs) = _
        rw [hc', if_neg (by decide), (ih (pos + 1)).1,
          List.takeWhile_cons_of_neg (by rw [hc']; decide),
          List.dropWhile_cons_of_neg (by rw [hc']; decide)]
        rw [List.length_nil, Nat.add_zero, wordRuns, if_neg (by rw [hc']; decide)]
        simp only [Nat.add_zero]

theorem getWordRangeAtPosition_eq (text : List Char) (offset : Nat) :
    getWordRangeAtPosition text offset = findWordRange (wordRuns 0 text) offset := by
  unfold getWordRangeAtPosition
  rw [(wordRunsAux_eq text 0).1]

theorem wordRuns_zero_iff_aux (n : Nat) :
    ∀ l : List Char, l.length ≤ n → ∀ s e : Nat,
      ((s, e) ∈ wordRuns 0 l ↔ WordSpan l s e) := by
  induction n with
  | zero =>
    intro l hl s e
    have hnil : l = [] := List.eq_nil_of_length_eq_zero (by omega)
    subst hnil
    constructor
    · intro h
      rw [wordRuns] at h
      exact absurd h (List.not_mem_nil _)
    · rintro ⟨h1, h2, -, -, -⟩
      simp only [List.length_nil] at h2
      omega
  | succ n ih =>
    intro l hl s e
    cases l with
    | nil =>
      constructor
      · intro h
        rw [wordRuns] at h
        exact absurd h (List.not_mem_nil _)
      · rintro ⟨h1, h2, -, -, -⟩
        simp only [List.length_nil] at h2
        omega
    | cons c cs =>
      have hcs : cs.length ≤ n := by
        simp only [List.length_cons] at hl
        omega
      have hd : (cs.dropWhile isWordChar).length ≤ n :=
        Nat.le_trans ((List.dropWhile_suffix _).sublist.length_le) hcs
      by_cases hc : isWordChar c = true
      · rw [wordRuns, if_pos hc, List.mem_cons]
        have hq : (0 : Nat) + 1 + (cs.takeWhile isWordChar).length
            = 0 + (1 + (cs.takeWhile isWordChar).length) := by omega
        rw [hq, wordRuns_shift 0 _ _, wordSpan_word_block_iff hc]
        constructor
        · rintro (heq | hmem)
          · left
            rw [Prod.ext_iff] at heq
            simp only at heq
            exact ⟨heq.1, by omega⟩
          · right
            rw [List.mem_map] at hmem
            obtain ⟨⟨s', e'⟩, hmem', heq⟩ := hmem
            rw [Prod.ext_iff] at heq
            simp only at heq
            exact ⟨s', e', (ih _ hd s' e').mp hmem', by omega, by omega⟩
        · rintro (⟨rfl, rfl⟩ | ⟨s', e', hspan', rfl, rfl⟩)
          · left
            rw [Prod.ext_iff]
            exact ⟨rfl, by omega⟩
          · right
            rw [List.mem_map]
            refine ⟨(s', e'), (ih _ hd s' e').mpr hspan', ?_⟩
            rw [Prod.ext_iff]
            constructor <;> (simp only; omega)
      · have hc' : isWordChar c = false := Bool.eq_false_iff.mpr hc
        rw [wordRuns, if_neg hc, wordRuns_shift 0 cs 1, List.mem_map]
        constructor
        · rintro ⟨⟨s', e'⟩, hmem', heq⟩
          rw [Prod.ext_iff] at heq
          simp only at heq
          obtain ⟨hs, he⟩ := heq
          rw [← hs, ← he]
          exact (wordSpan_cons_iff hc' s' e').mpr ((ih cs hcs s' e').mp hmem')
        · intro hspan
          have hs1 : 1 ≤ s := by
            by_contra h0
            have hz : s = 0 := by omega
            subst hz
            have hx := hspan.2.2.1 0 hspan.1 (Nat.le_refl 0)
            rw [List.getD_cons_zero, hc'] at hx
            exact absurd hx (by decide)
          have he1 : 1 ≤ e := by
            have := hspan.1
            omega
          obtain ⟨s', rfl⟩ : ∃ s', s = s' + 1 := ⟨s - 1, by omega⟩
          obtain ⟨e', rfl⟩ : ∃ e', e = e' + 1 := ⟨e - 1, by omega⟩
          exact ⟨(s', e'),
            (ih cs hcs s' e').mpr ((wordSpan_cons_iff hc' s' e').mp hspan), rfl⟩

theorem wordRuns_zero_iff (l : List Char) (s e : Nat) :
    (s, e) ∈ wordRuns 0 l ↔ WordSpan l s e :=
  wordRuns_zero_iff_aux l.length l (Nat.le_refl _) s e

theorem wordRuns_pairwise (pos : Nat) (l : List Char) :
    (wordRuns pos l).Pairwise (fun a b => a.2 < b.1) := by
  induction pos, l using wordRuns.induct with
  | case1 pos =>
    rw [wordRuns]
    exact List.Pairwise.nil
  | case2 pos c cs h ihx =>
    rw [wordRuns, if_pos h]
    refine List.Pairwise.cons ?_ ihx
    rintro ⟨s, e⟩ hb
    have hq : pos + 1 + (cs.takeWhile isWordChar).length
        = 0 + (pos + 1 + (cs.takeWhile isWordChar).length) := by omega
    rw [hq, wordRuns_shift 0 _ _, List.mem_map] at hb
    obtain ⟨⟨s', e'⟩, hb', heq⟩ := hb
    have hspan := (wordRuns_zero_iff _ s' e').mp hb'
    have hs' : 1 ≤ s' := by
      by_contra h0
      have hz : s' = 0 := by omega
      subst hz
      have hx := hspan.2.2.1 0 hspan.1 (Nat.le_refl 0)
      cases hdw : cs.dropWhile isWordChar with
      | nil =>
        have h2 := hspan.2.1
        rw [hdw] at h2
        simp only [List.length_nil] at h2
        have h1 := hspan.1
        omega
      | cons x xs =>
        rw [hdw, List.getD_cons_zero] at hx
        rw [dropWhile_head_not_word cs hdw] at hx
        exact absurd hx (by decide)
    rw [Prod.ext_iff] at heq
    simp only at heq
    show pos + 1 + (cs.takeWhile isWordChar).length < s
    omega
  | case3 pos c cs h ihx =>
    rw [wordRuns, if_neg h]
    exact ihx

theorem findWordRange_some_of_mem :
    ∀ (runs : List (Nat × Nat)) (off s e : Nat),
      runs.Pairwise (fun a b => a.2 < b.1) → (s, e) ∈ runs → s ≤ off → off ≤ e →
        findWordRange runs off = some (s, e) := by
  intro runs
  induction runs with
  | nil =>
    intro off s e _ h _ _
    exact absurd h (List.not_mem_nil _)
  | cons a rest ihx =>
    rintro off s e hpw hmem h1 h2
    rcases a with ⟨a1, a2⟩
    rw [List.mem_cons] at hmem
    rcases hmem with heq | hmem
    · rw [Prod.ext_iff] at heq
      simp only at heq
      obtain ⟨rfl, rfl⟩ := heq
      show (if s ≤ off ∧ off ≤ e then some (s, e) else findWordRange rest off)
        = some (s, e)
      rw [if_pos ⟨h1, h2⟩]
    · have hlt := (List.pairwise_cons.mp hpw).1 (s, e) hmem
      simp only at hlt
      show (if a1 ≤ off ∧ off ≤ a2 then some (a1, a2) else findWordRange rest off)
        = some (s, e)
      rw [if_neg (by rintro ⟨-, hc2⟩; omega)]
      exact ihx off s e (List.pairwise_cons.mp hpw).2 hmem h1 h2

theorem findWordRange_mem :
    ∀ (runs : List (Nat × Nat)) (off s e : Nat),
      findWordRange runs off = some (s, e) → (s, e) ∈ runs ∧ s ≤ off ∧ off ≤ e := by
  intro runs
  induction runs with
  | nil =>
    intro off s e h
    exact absurd h (by simp [findWordRange])
  | cons a rest ihx =>
    intro off s e h
    rcases a with ⟨a1, a2⟩
    rw [show findWordRange ((a1, a2) :: rest) off
      = if a1 ≤ off ∧ off ≤ a2 then some (a1, a2) else findWordRange rest off
      from rfl] at h
    by_cases hc : a1 ≤ off ∧ off ≤ a2
    · rw [if_pos hc] at h
      injection h with h'
      rw [Prod.ext_iff] at h'
      simp only at h'
      obtain ⟨rfl, rfl⟩ := h'
      exact ⟨List.mem_cons_self _ _, hc.1, hc.2⟩
    · rw [if_neg hc] at h
      have hr := ihx off s e h
      exact ⟨List.mem_cons_of_mem _ hr.1, hr.2⟩

/-! ## Claims C4 and C9 -/

set_option maxRecDepth 4000 in
/-- C4 counterexample: in the document `"Address x"` the offset 7 sits on
whitespace (the space after the identifier), yet hover answers with the
`Address` documentation instead of nothing, because the containment check
is inclusive at the token's end offset. -/
theorem c4_counterexample :
    ("Address x".toList.getD 7 'x' = ' ') ∧
    onHover ("Address x".toList) 7 = getStellarInfo "Address" ∧
    (getStellarInfo "Address").isSome = true := by
  decide

/-- C4 (amended): hover is fully determined by the maximal word-character
runs: when no such run's inclusive span `[s, e]` contains the offset —
in particular on whitespace or punctuation not adjacent to a token end —
hover returns nothing; when the offset lies in the inclusive span of the
run `[s, e)` (its first character, any inner position, its last
character, or the end offset `e` one past the token), hover returns the
exact static documentation entry for that token, which is `none` for any
unrecognized token such as `Addresss` — no fuzzy or prefix matching. -/
theorem c4_hover_word_span_characterization (text : List Char) (off : Nat) :
    ((∀ s e, WordSpan text s e → ¬(s ≤ off ∧ off ≤ e)) →
      onHover text off = none) ∧
    (∀ s e, WordSpan text s e → s ≤ off → off ≤ e →
      onHover text off = getStellarInfo (wordOf text s e)) := by
  constructor
  · intro h
    unfold onHover
    rw [getWordRangeAtPosition_eq]
    cases hf : findWordRange (wordRuns 0 text) off with
    | none => rfl
    | some p =>
      rcases p with ⟨s, e⟩
      obtain ⟨hmem, h1, h2⟩ := findWordRange_mem _ off s e hf
      exact absurd ⟨h1, h2⟩ (h s e ((wordRuns_zero_iff text s e).mp hmem))
  · intro s e hspan h1 h2
    unfold onHover
    rw [getWordRangeAtPosition_eq,
      findWordRange_some_of_mem (wordRuns 0 text) off s e (wordRuns_pairwise 0 text)
        ((wordRuns_zero_iff text s e).mpr hspan) h1 h2]

set_option maxRecDepth 4000 in
/-- C4 witness: the amended theorem applied at a concrete unrecognized
token (`Addresss`, offset inside its span, hover yields nothing) and at a
concrete non-adjacent whitespace offset. -/
theorem c4_witness :
    onHover ("Addresss y".toList) 3 = getStellarInfo "Addresss" ∧
    getStellarInfo "Addresss" = none := by
  constructor
  · exact (c4_hover_word_span_characterization ("Addresss y".toList) 3).2 0 8
      (by decide) (by decide) (by decide)
  · decide

/-- C9: for every text and every recognized-identifier occurrence spanning
`[s, e)`, a hover whose computed offset equals the token's end offset `e`
(one past its last character) still resolves to that identifier and
returns its documentation: the word-range containment check is inclusive
at the end offset. -/
theorem c9_hover_inclusive_end (text : List Char) (s e : Nat) (doc : String)
    (hspan : WordSpan text s e)
    (hdoc : getStellarInfo (wordOf text s e) = some doc) :
    onHover text e = some doc := by
  unfold onHover
  rw [getWordRangeAtPosition_eq,
    findWordRange_some_of_mem (wordRuns 0 text) e s e (wordRuns_pairwise 0 text)
      ((wordRuns_zero_iff text s e).mpr hspan) (Nat.le_of_lt hspan.1) (Nat.le_refl e)]
  exact hdoc

set_option maxRecDepth 4000 in
/-- C9 witness: hovering the space just past `Env` in `"x Env!"` (offset
5, the end offset of the token at span `[2, 5)`) returns the `Env`
documentation. -/
theorem c9_witness :
    onHover ("x Env!".toList) 5 = getStellarInfo "Env" ∧
    (getStellarInfo "Env").isSome = true := by
  constructor
  · obtain ⟨doc, hdoc⟩ : ∃ doc, getStellarInfo (wordOf ("x Env!".toList) 2 5) = some doc :=
      ⟨_, rfl⟩
    rw [show getStellarInfo "Env" = getStellarInfo (wordOf ("x Env!".toList) 2 5) from rfl,
      hdoc]
    exact c9_hover_inclusive_end ("x Env!".toList) 2 5 doc (by decide) hdoc
  · decide

end StellarLSP
